import Mathlib

/-!
Verification of the gnssvod analytical core against its specification.

The development shallowly embeds the three algorithmic parts of the
repository:

* `gnssvod/analysis/vod_calc.py` — the VOD formula and the multi-band
  first-available fallback combination (`calc_vod`);
* `gnssvod/hemistats/hemistats.py` — the equal-solid-angle hemisphere grid
  (`hemibuild`) and cell assignment (`Hemi.add_CellID`);
* `gnssvod/io/preprocess.py` — per-interval gathering of station tables
  (`gather_stations`).

Floating-point values are modelled as real numbers, NaN/missing values as
`Option`, pandas tables as lists of rows, and timestamps as rationals.
-/

namespace GnssVod

/-! ## VOD calculation (gnssvod/analysis/vod_calc.py, `calc_vod`)

A row of the paired table (produced by `iref.merge(igrn, on=['Epoch','SV'],
suffixes=['_ref','_grn'])`) is modelled by two functions giving, for each
pre-merge column name, the value at the reference station and at the ground
station; `none` models a NaN entry. -/

/-- numpy `deg2rad`. -/
noncomputable def deg2rad (x : ℝ) : ℝ := x * (Real.pi / 180)

/-- Strict lexicographic comparison of character sequences, the order numpy
uses when sorting string arrays. -/
def strLtb : List Char → List Char → Bool
  | [], [] => false
  | [], _ :: _ => true
  | _ :: _, [] => false
  | a :: as, b :: bs =>
    if a.val < b.val then true
    else if b.val < a.val then false
    else strLtb as bs

/-- Lexicographic `≤` on column names (total: `a ≤ b ↔ ¬ b < a`). -/
def nameLe (a b : String) : Bool := !(strLtb b.data a.data)

/-- Insertion into a sorted list of names. -/
def insertSorted (a : String) : List String → List String
  | [] => [a]
  | b :: bs => if nameLe a b then a :: b :: bs else b :: insertSorted a bs

/-- Sorting a list of names lexicographically (model of `np.sort`). -/
def sortNames : List String → List String
  | [] => []
  | a :: as => insertSorted a (sortNames as)

/-- `np.intersect1d(ar1, ar2)`: the sorted list of the distinct values
present in both inputs. -/
def intersect1d (ar1 ar2 : List String) : List String :=
  sortNames ((ar1.filter (fun s => decide (s ∈ ar2))).dedup)

/-- The per-candidate VOD formula of vod_calc.py lines 64-65:
`-np.log(np.power(10,(grn-ref)/10)) * np.cos(np.deg2rad(90-ele))`. -/
noncomputable def vodFormula (grn ref ele : ℝ) : ℝ :=
  -Real.log ((10 : ℝ) ^ ((grn - ref) / 10)) * Real.cos (deg2rad (90 - ele))

/-- The VOD value of candidate column `v` for one merged row: the code reads
`idat[f"{v}_grn"]`, `idat[f"{v}_ref"]` and `idat["Elevation_grn"]` (the
ground station's elevation); NaN in any input propagates to the result. -/
noncomputable def candidateVOD (refRow grnRow : String → Option ℝ) (v : String) :
    Option ℝ :=
  match grnRow v, refRow v, grnRow "Elevation" with
  | some g, some r, some e => some (vodFormula g r e)
  | _, _, _ => none

/-- The fallback combination of vod_calc.py lines 67-69: the output column
starts as NaN and is successively `fillna`-ed with each candidate column. -/
def fillnaChain (vals : List (Option ℝ)) : Option ℝ :=
  vals.foldl (fun acc v => match acc with | some a => some a | none => v) none

/-- The combined band value for one row and one band definition
(vod_calc.py lines 58-69): the candidates actually used are
`np.intersect1d(data.columns, candidates)`, and the first non-missing
per-candidate VOD in that list wins. -/
noncomputable def calc_vod_band (columns : List String)
    (refRow grnRow : String → Option ℝ) (candidates : List String) : Option ℝ :=
  fillnaChain ((intersect1d columns candidates).map (candidateVOD refRow grnRow))

lemma fillnaChain_some (xs : List (Option ℝ)) (a : ℝ) :
    xs.foldl (fun acc v => match acc with | some a => some a | none => v)
      (some a) = some a := by
  induction xs with
  | nil => rfl
  | cons x xs ih => simpa using ih

lemma fillnaChain_eq_findSome (xs : List (Option ℝ)) :
    fillnaChain xs = xs.findSome? id := by
  induction xs with
  | nil => rfl
  | cons x xs ih =>
    cases x with
    | none => simpa [fillnaChain, List.findSome?] using ih
    | some a => simp [fillnaChain, List.findSome?, fillnaChain_some]

lemma fillnaChain_map_eq_findSome (f : String → Option ℝ) (l : List String) :
    fillnaChain (l.map f) = l.findSome? f := by
  rw [fillnaChain_eq_findSome, List.findSome?_map]
  rfl

/-- C1 (amended): for every column list, band candidate list and merged row,
the combined band value produced by `calc_vod` is the VOD value of the first
candidate — in the sorted order of the candidates present in the table, the
order produced by `np.intersect1d` — whose VOD value is non-missing
(`List.findSome?`); when every candidate's VOD is missing the combined value
is missing. -/
theorem calc_vod_fallback_sorted_priority (columns : List String)
    (refRow grnRow : String → Option ℝ) (candidates : List String) :
    calc_vod_band columns refRow grnRow candidates
      = (intersect1d columns candidates).findSome? (candidateVOD refRow grnRow) := by
  exact fillnaChain_map_eq_findSome _ _

/-- C1 (counterexample): with bands `{'VOD1': ['S1','S1X','S1C']}`, a table
containing all three candidate columns, and a row where S1 is missing while
both S1X and S1C are present, the caller-specified order would pick S1X, but
the code picks S1C (the sorted order of `np.intersect1d` puts S1C before
S1X), and the two VOD values differ at this row. -/
theorem calc_vod_fallback_caller_order_cex :
    calc_vod_band ["S1", "S1C", "S1X"]
      (fun s => if s = "S1C" then some 0 else if s = "S1X" then some 0 else none)
      (fun s => if s = "S1C" then some 1 else if s = "S1X" then some 0
                else if s = "Elevation" then some 90 else none)
      ["S1", "S1X", "S1C"]
      = some (vodFormula 1 0 90)
    ∧ vodFormula 1 0 90 ≠ vodFormula 0 0 90 := by
  constructor
  · have h : intersect1d ["S1", "S1C", "S1X"] ["S1", "S1X", "S1C"]
        = ["S1", "S1C", "S1X"] := by decide
    unfold calc_vod_band
    rw [fillnaChain_map_eq_findSome, h]
    simp [candidateVOD]
  · have h10 : (0:ℝ) < 10 := by norm_num
    have hlog : Real.log 10 ≠ 0 := ne_of_gt (Real.log_pos (by norm_num))
    simp only [vodFormula, deg2rad, sub_self, zero_mul, Real.cos_zero,
      Real.rpow_zero, Real.log_one, neg_zero]
    rw [Real.log_rpow h10]
    intro hcontra
    apply hlog
    have : ((1:ℝ) - 0) / 10 * Real.log 10 = 0 := by
      have := hcontra
      field_simp at this ⊢
      linarith [this]
    have h110 : ((1:ℝ) - 0) / 10 ≠ 0 := by norm_num
    exact (mul_eq_zero.mp this).resolve_left h110

/-- C4: for every merged row where candidate column `v` is present at both
stations and the ground elevation is present, the per-candidate VOD equals
`-ln(10^((ground - reference)/10)) * cos(radians(90 - elevation))` with the
ground station's elevation, and it is `0` whenever ground equals reference,
for every elevation. -/
theorem calc_vod_candidate_formula (g r e : ℝ)
    (refRow grnRow : String → Option ℝ) (v : String)
    (hg : grnRow v = some g) (hr : refRow v = some r)
    (he : grnRow "Elevation" = some e) :
    candidateVOD refRow grnRow v
        = some (-Real.log ((10 : ℝ) ^ ((g - r) / 10))
                  * Real.cos (deg2rad (90 - e)))
      ∧ (g = r → candidateVOD refRow grnRow v = some 0) := by
  have hval : candidateVOD refRow grnRow v = some (vodFormula g r e) := by
    unfold candidateVOD
    rw [hg, hr, he]
  refine ⟨hval, fun hge => ?_⟩
  rw [hval]
  unfold vodFormula
  rw [hge, sub_self, zero_div, Real.rpow_zero, Real.log_one, neg_zero, zero_mul]

/-- C4 (witness): a concrete row with equal signal strengths 35 dB-Hz at
both stations and elevation 42° has VOD exactly 0. -/
theorem calc_vod_candidate_formula_witness :
    candidateVOD
      (fun s => if s = "S1" then some 35 else none)
      (fun s => if s = "S1" then some 35 else if s = "Elevation" then some 42
                else none)
      "S1" = some 0 :=
  (calc_vod_candidate_formula 35 35 42
    (fun s => if s = "S1" then some 35 else none)
    (fun s => if s = "S1" then some 35 else if s = "Elevation" then some 42
              else none)
    "S1" rfl rfl rfl).2 rfl

/-! ## Station gathering (gnssvod/io/preprocess.py, `gather_stations`)

Timestamps are modelled as rationals, a station's table as a list of rows.
The per-file epoch extrema (`epochs_min`/`epochs_max`, extracted upstream at
lines 340-343 from each file's Epoch coordinate) travel with the file. -/

/-- One observation row of a preprocessed station file: the (Epoch, SV)
index pair plus the data payload; `none` models a NaN entry. -/
structure ObsRow where
  epoch : ℚ
  sv : String
  vals : String → Option ℚ

/-- One preprocessed station file: its rows and its epoch extrema. -/
structure ObsFile where
  tmin : ℚ
  tmax : ℚ
  rows : List ObsRow

/-- A processing interval, half-open `[left, right)` (pandas
`closed='left'`, as the spec's data model and the repository's test fixture
use). -/
structure TInterval where
  left : ℚ
  right : ℚ

/-- `x in interval` for a left-closed interval. -/
def TInterval.contains (iv : TInterval) (t : ℚ) : Bool :=
  decide (iv.left ≤ t) && decide (t < iv.right)

/-- Line 357-358: `interval.overlaps(pd.Interval(left=tmin, right=tmax))`
with `interval` left-closed and the file interval right-closed
(`pd.Interval` default); per pandas, the intervals overlap iff
`interval.left ≤ tmax` and `tmin < interval.right`. -/
def fileOverlaps (iv : TInterval) (f : ObsFile) : Bool :=
  decide (iv.left ≤ f.tmax) && decide (f.tmin < iv.right)

/-- The sort key of a row: the (Epoch, SV) index pair, ordered
lexicographically as `sort_index(level=['Epoch','SV'])` does. -/
def ObsRow.key (r : ObsRow) : Lex (ℚ × String) := toLex (r.epoch, r.sv)

/-- Weak ordering by (Epoch, SV). -/
def keyLe (a b : ObsRow) : Prop := a.key ≤ b.key

/-- Strict ordering by (Epoch, SV). -/
def keyLt (a b : ObsRow) : Prop := a.key < b.key

instance : DecidableRel keyLe := fun a b =>
  inferInstanceAs (Decidable (a.key ≤ b.key))

instance : IsTotal ObsRow keyLe := ⟨fun a b => le_total a.key b.key⟩

instance : IsTrans ObsRow keyLe := ⟨fun _ _ _ => le_trans⟩

/-- Line 370, `idata[~idata.index.duplicated()]`: keep the first occurrence
of every (Epoch, SV) index pair, in arrival order. -/
def dedupGo : List ObsRow → List (Lex (ℚ × String)) → List ObsRow
  | [], _ => []
  | r :: rs, seen =>
    if r.key ∈ seen then dedupGo rs seen
    else r :: dedupGo rs (r.key :: seen)

/-- Drop duplicate (Epoch, SV) pairs keeping the first occurrence. -/
def dedupFirst (l : List ObsRow) : List ObsRow := dedupGo l []

/-- Line 370, `.sort_index(level=['Epoch','SV'])`: stable sort by the
(Epoch, SV) key. -/
def sortRows (l : List ObsRow) : List ObsRow := List.insertionSort keyLe l

/-- Lines 363-368 for one station: rows of the files whose extrema overlap
the interval, concatenated in file order, restricted to epochs inside the
interval. -/
def arrivalRows (iv : TInterval) (files : List ObsFile) : List ObsRow :=
  (((files.filter (fileOverlaps iv)).map ObsFile.rows).flatten).filter
    (fun r => iv.contains r.epoch)

/-- Lines 355-376 for one station: if no file overlaps the interval the
station contributes an empty frame, otherwise its in-interval rows are
deduplicated and sorted. -/
def gatherStation (iv : TInterval) (files : List ObsFile) : List ObsRow :=
  if (files.filter (fileOverlaps iv)).length = 0 then []
  else sortRows (dedupFirst (arrivalRows iv files))

/-- `pd.concat(objs)`: raises `ValueError` when `objs` is empty, otherwise
concatenates. -/
def pdConcat {α : Type} (ls : List (List α)) : Except String (List α) :=
  if ls.isEmpty then .error "No objects to concatenate" else .ok ls.flatten

/-- Exception-aware model of lines 355-376: the only statement of the
station loop that can raise on data (rather than structure) is the
`pd.concat(idata)` of line 366. -/
def gatherStationE (iv : TInterval) (files : List ObsFile) :
    Except String (List ObsRow) :=
  let sel := files.filter (fileOverlaps iv)
  if sel.length = 0 then .ok []
  else do
    let idata ← pdConcat (sel.map ObsFile.rows)
    pure (sortRows (dedupFirst (idata.filter (fun r => iv.contains r.epoch))))

/-- Lines 353-410 for one interval: every station of the case tuple
contributes a block (possibly empty), in the order the case lists the
stations; if every block is empty the interval is skipped (`none`). -/
def gatherInterval (stations : List (String × List ObsFile))
    (iv : TInterval) : Option (List (String × List ObsRow)) :=
  let iout := stations.map (fun s => (s.1, gatherStation iv s.2))
  if iout.all (fun s => s.2.isEmpty) then none else some iout

/-- The inner `for station_name in station_names` loop of lines 355-376,
collecting one block per station. -/
def gatherStationsLoopE (iv : TInterval) :
    List (String × List ObsFile) →
      Except String (List (String × List ObsRow))
  | [] => .ok []
  | s :: ss => do
    let rows ← gatherStationE iv s.2
    let rest ← gatherStationsLoopE iv ss
    pure ((s.1, rows) :: rest)

/-- Exception-aware model of one interval iteration. -/
def gatherIntervalE (stations : List (String × List ObsFile))
    (iv : TInterval) : Except String (Option (List (String × List ObsRow))) := do
  let iout ← gatherStationsLoopE iv stations
  pure (if iout.all (fun s => s.2.isEmpty) then none else some iout)

/-- The interval loop of one case with its output accumulator `out`
(lines 347, 351-410): an interval that yields data appends one artifact,
an all-empty interval appends nothing. -/
def gatherCaseGoE (stations : List (String × List ObsFile))
    (acc : List (List (String × List ObsRow))) :
    List TInterval → Except String (List (List (String × List ObsRow)))
  | [] => .ok acc
  | iv :: ivs => do
    match ← gatherIntervalE stations iv with
    | none => gatherCaseGoE stations acc ivs
    | some t => gatherCaseGoE stations (acc ++ [t]) ivs

/-- Lines 347-410: the whole interval loop of one case, starting from an
empty output list. -/
def gatherCaseE (stations : List (String × List ObsFile))
    (ivs : List TInterval) :
    Except String (List (List (String × List ObsRow))) :=
  gatherCaseGoE stations [] ivs

lemma gatherStationE_ok (iv : TInterval) (files : List ObsFile) :
    gatherStationE iv files = .ok (gatherStation iv files) := by
  unfold gatherStationE gatherStation
  by_cases h : (files.filter (fileOverlaps iv)).length = 0
  · simp [h]
  · have hne : ((files.filter (fileOverlaps iv)).map ObsFile.rows).isEmpty
        = false := by
      rw [List.isEmpty_eq_false_iff_exists_mem]
      rcases List.exists_mem_of_length_pos (Nat.pos_of_ne_zero h) with ⟨f, hf⟩
      exact ⟨f.rows, List.mem_map_of_mem ObsFile.rows hf⟩
    simp [h, pdConcat, hne, arrivalRows, bind, Except.bind, pure, Except.pure]

lemma gatherStationsLoopE_ok (iv : TInterval)
    (stations : List (String × List ObsFile)) :
    gatherStationsLoopE iv stations
      = .ok (stations.map (fun s => (s.1, gatherStation iv s.2))) := by
  induction stations with
  | nil => rfl
  | cons s ss ih =>
    simp [gatherStationsLoopE, gatherStationE_ok, ih, bind, Except.bind, pure,
      Except.pure]

lemma gatherIntervalE_ok (stations : List (String × List ObsFile))
    (iv : TInterval) :
    gatherIntervalE stations iv = .ok (gatherInterval stations iv) := by
  unfold gatherIntervalE gatherInterval
  simp [gatherStationsLoopE_ok, bind, Except.bind, pure, Except.pure]

lemma gatherCaseGoE_eq (stations : List (String × List ObsFile))
    (ivs : List TInterval) (acc : List (List (String × List ObsRow))) :
    gatherCaseGoE stations acc ivs
      = .ok (acc ++ ivs.filterMap (gatherInterval stations)) := by
  induction ivs generalizing acc with
  | nil => simp [gatherCaseGoE]
  | cons iv ivs ih =>
    rw [gatherCaseGoE, gatherIntervalE_ok]
    cases h : gatherInterval stations iv with
    | none =>
      simp [bind, Except.bind, ih, List.filterMap_cons, h]
    | some t =>
      simp [bind, Except.bind, ih, List.filterMap_cons, h]

/-- C5: the interval loop of a case never raises: an all-empty interval is
skipped (contributing nothing to the output list) and processing continues
with the remaining intervals; a station with no rows contributes an empty
frame while the other stations' blocks are kept, in case order. -/
theorem gather_absence_never_aborts (stations : List (String × List ObsFile))
    (ivs : List TInterval) :
    gatherCaseE stations ivs
        = .ok (ivs.filterMap (gatherInterval stations))
      ∧ (∀ iv, (∀ s ∈ stations, gatherStation iv s.2 = []) →
          gatherInterval stations iv = none)
      ∧ (∀ iv t, gatherInterval stations iv = some t →
          t = stations.map (fun s => (s.1, gatherStation iv s.2))) := by
  refine ⟨?_, ?_, ?_⟩
  · simpa [gatherCaseE] using gatherCaseGoE_eq stations ivs []
  · intro iv hall
    unfold gatherInterval
    have : (stations.map (fun s => (s.1, gatherStation iv s.2))).all
        (fun s => s.2.isEmpty) = true := by
      simp only [List.all_eq_true, List.mem_map]
      rintro p ⟨s, hs, rfl⟩
      simp [hall s hs]
    simp [this]
  · intro iv t ht
    unfold gatherInterval at ht
    by_cases hc : (stations.map (fun s => (s.1, gatherStation iv s.2))).all
        (fun s => s.2.isEmpty) = true
    · simp [hc] at ht
    · simp [hc] at ht
      exact ht.symm

/-- C5 (witness): a two-station case over two intervals; station Grnd has
no files at all, the second interval holds no data for either station; no
error is raised, the empty interval is skipped, and the non-empty interval
keeps both stations' blocks in case order. -/
theorem gather_absence_never_aborts_witness :
    gatherCaseE
        [("Twr", [ObsFile.mk 1 1 [ObsRow.mk 1 "G01" (fun _ => none)]]),
         ("Grnd", [])]
        [TInterval.mk 0 10, TInterval.mk 20 30]
      = .ok ([TInterval.mk 0 10, TInterval.mk 20 30].filterMap
          (gatherInterval
            [("Twr", [ObsFile.mk 1 1 [ObsRow.mk 1 "G01" (fun _ => none)]]),
             ("Grnd", [])]))
    ∧ gatherInterval
        [("Twr", [ObsFile.mk 1 1 [ObsRow.mk 1 "G01" (fun _ => none)]]),
         ("Grnd", [])] (TInterval.mk 20 30) = none := by
  refine ⟨(gather_absence_never_aborts _ _).1, ?_⟩
  apply (gather_absence_never_aborts _ []).2.1
  intro s hs
  rcases List.mem_cons.mp hs with rfl | hs'
  · rfl
  · rcases List.mem_cons.mp hs' with rfl | h
    · rfl
    · exact absurd h (List.not_mem_nil s)

lemma dedupGo_key_not_mem (l : List ObsRow) :
    ∀ (seen : List (Lex (ℚ × String))) (r : ObsRow),
      r ∈ dedupGo l seen → r.key ∉ seen := by
  induction l with
  | nil => intro seen r hr; simp [dedupGo] at hr
  | cons x xs ih =>
    intro seen r hr
    rw [dedupGo] at hr
    by_cases hx : x.key ∈ seen
    · rw [if_pos hx] at hr
      exact ih seen r hr
    · rw [if_neg hx] at hr
      rcases List.mem_cons.mp hr with rfl | hr'
      · exact hx
      · have := ih (x.key :: seen) r hr'
        exact fun hmem => this (List.mem_cons_of_mem _ hmem)

lemma dedupGo_pairwise (l : List ObsRow) :
    ∀ seen : List (Lex (ℚ × String)),
      (dedupGo l seen).Pairwise (fun a b => a.key ≠ b.key) := by
  induction l with
  | nil => intro seen; simp [dedupGo]
  | cons x xs ih =>
    intro seen
    rw [dedupGo]
    by_cases hx : x.key ∈ seen
    · rw [if_pos hx]; exact ih seen
    · rw [if_neg hx]
      refine List.Pairwise.cons ?_ (ih (x.key :: seen))
      intro b hb hcontra
      exact dedupGo_key_not_mem xs (x.key :: seen) b hb
        (hcontra ▸ List.mem_cons_self x.key seen)

lemma dedupGo_find? (l : List ObsRow) :
    ∀ (seen : List (Lex (ℚ × String))) (r : ObsRow), r ∈ dedupGo l seen →
      l.find? (fun r' => decide (r'.key = r.key)) = some r := by
  induction l with
  | nil => intro seen r hr; simp [dedupGo] at hr
  | cons x xs ih =>
    intro seen r hr
    rw [dedupGo] at hr
    by_cases hx : x.key ∈ seen
    · rw [if_pos hx] at hr
      have hnot := dedupGo_key_not_mem xs seen r hr
      have hne : ¬ (x.key = r.key) := fun h => hnot (h ▸ hx)
      rw [List.find?_cons_of_neg _ (by simpa using hne)]
      exact ih seen r hr
    · rw [if_neg hx] at hr
      rcases List.mem_cons.mp hr with rfl | hr'
      · rw [List.find?_cons_of_pos _ (by simp)]
      · have hnot := dedupGo_key_not_mem xs (x.key :: seen) r hr'
        have hne : ¬ (x.key = r.key) := fun h =>
          hnot (h ▸ List.mem_cons_self x.key seen)
        rw [List.find?_cons_of_neg _ (by simpa using hne)]
        exact ih (x.key :: seen) r hr'

lemma sortRows_perm (l : List ObsRow) : List.Perm (sortRows l) l :=
  List.perm_insertionSort keyLe l

lemma gatherStation_pairwise_lt (iv : TInterval) (files : List ObsFile) :
    (gatherStation iv files).Pairwise keyLt := by
  unfold gatherStation
  by_cases h : (files.filter (fileOverlaps iv)).length = 0
  · simp [h]
  · rw [if_neg h]
    have hsorted : (sortRows (dedupFirst (arrivalRows iv files))).Pairwise keyLe :=
      List.sorted_insertionSort keyLe _
    have hne : (sortRows (dedupFirst (arrivalRows iv files))).Pairwise
        (fun a b => a.key ≠ b.key) :=
      ((sortRows_perm _).pairwise_iff
        (fun hab => hab ∘ Eq.symm)).mpr (dedupGo_pairwise _ [])
    exact (hsorted.and hne).imp (fun hab => lt_of_le_of_ne hab.1 hab.2)

/-- C6: within a station's gathered block the rows are strictly increasing
in the (Epoch, SV) key (so the key pairs are unique), each surviving row is
the first arrival-order occurrence of its key among the interval's rows,
and the station blocks of a gathered table appear in the order the case
lists the stations. -/
theorem gather_ordering_uniqueness (iv : TInterval) (files : List ObsFile)
    (stations : List (String × List ObsFile))
    (t : List (String × List ObsRow))
    (ht : gatherInterval stations iv = some t) :
    (gatherStation iv files).Pairwise keyLt
      ∧ (∀ r ∈ gatherStation iv files,
          (arrivalRows iv files).find? (fun r' => decide (r'.key = r.key))
            = some r)
      ∧ t.map Prod.fst = stations.map Prod.fst := by
  refine ⟨gatherStation_pairwise_lt iv files, ?_, ?_⟩
  · intro r hr
    unfold gatherStation at hr
    by_cases h : (files.filter (fileOverlaps iv)).length = 0
    · rw [if_pos h] at hr; simp at hr
    · rw [if_neg h] at hr
      have hr' : r ∈ dedupFirst (arrivalRows iv files) :=
        (sortRows_perm _).mem_iff.mp hr
      exact dedupGo_find? _ [] r hr'
  · unfold gatherInterval at ht
    by_cases hc : (stations.map (fun s => (s.1, gatherStation iv s.2))).all
        (fun s => s.2.isEmpty) = true
    · simp [hc] at ht
    · simp [hc] at ht
      rw [← ht]
      simp

/-- C6 (witness): a concrete case with one data row: the Twr block is
strictly ordered, its row is the first occurrence of its key, and the
blocks come in the case's order Twr, Grnd. -/
theorem gather_ordering_uniqueness_witness :
    (gatherStation (TInterval.mk 0 10)
        [ObsFile.mk 1 1 [ObsRow.mk 1 "G01" (fun _ => none)]]).Pairwise keyLt
    ∧ (arrivalRows (TInterval.mk 0 10)
        [ObsFile.mk 1 1 [ObsRow.mk 1 "G01" (fun _ => none)]]).find?
        (fun r' => decide (r'.key = (ObsRow.mk 1 "G01" (fun _ => none)).key))
        = some (ObsRow.mk 1 "G01" (fun _ => none))
    ∧ [("Twr", [ObsRow.mk 1 "G01" (fun _ => none)]),
        ("Grnd", ([] : List ObsRow))].map Prod.fst
      = [("Twr", [ObsFile.mk 1 1 [ObsRow.mk 1 "G01" (fun _ => none)]]),
         ("Grnd", ([] : List ObsFile))].map Prod.fst := by
  have h := gather_ordering_uniqueness (TInterval.mk 0 10)
    [ObsFile.mk 1 1 [ObsRow.mk 1 "G01" (fun _ => none)]]
    [("Twr", [ObsFile.mk 1 1 [ObsRow.mk 1 "G01" (fun _ => none)]]),
     ("Grnd", [])]
    [("Twr", [ObsRow.mk 1 "G01" (fun _ => none)]), ("Grnd", [])]
    rfl
  refine ⟨h.1, ?_, h.2.2⟩
  apply h.2.1
  show ObsRow.mk 1 "G01" (fun _ => none)
    ∈ gatherStation (TInterval.mk 0 10)
        [ObsFile.mk 1 1 [ObsRow.mk 1 "G01" (fun _ => none)]]
  rw [show gatherStation (TInterval.mk 0 10)
      [ObsFile.mk 1 1 [ObsRow.mk 1 "G01" (fun _ => none)]]
      = [ObsRow.mk 1 "G01" (fun _ => none)] from rfl]
  exact List.mem_singleton.mpr rfl

/-! ## Derivation of the default time interval (preprocess.py lines 349-350)

When `timeintervals` is `None`, gather_stations executes
`timeintervals = pd.interval_range(start=epochs_min, end=epochs_max)`,
where `epochs_min` and `epochs_max` are the dictionaries
station name → list of per-file epoch extrema built at lines 342-343. -/

/-- A value passed as an endpoint to `pd.interval_range`: either a scalar
timestamp or one of the station dictionaries of lines 342-343. -/
inductive PdEndpoint where
  | scalar (t : ℚ)
  | dict (d : List (String × List ℚ))

/-- Model of `pd.interval_range(start=..., end=...)`: pandas validates that
each endpoint is numeric or datetime-like and raises `ValueError`
otherwise; on scalar endpoints it produces consecutive unit-frequency
(default daily) intervals between start and end — not one single spanning
interval. -/
def interval_range (start stop : PdEndpoint) : Except String (List TInterval) :=
  match start, stop with
  | .scalar a, .scalar b =>
      .ok ((List.range (Int.toNat ⌊b - a⌋)).map
        (fun i => TInterval.mk (a + i) (a + i + 1)))
  | _, _ => .error "start must be numeric or datetime-like"

/-- Lines 349-350: the value computed for `timeintervals` when the caller
omits it. -/
def deriveTimeintervals (epochs_min epochs_max : List (String × List ℚ)) :
    Except String (List TInterval) :=
  interval_range (.dict epochs_min) (.dict epochs_max)

/-- C8 (code bug): when `timeintervals` is omitted, the derivation step
always raises — the dictionaries `epochs_min`/`epochs_max` are passed
directly to `pd.interval_range`, which rejects non-scalar endpoints — so no
single spanning interval is ever derived and gathering cannot proceed. -/
theorem derive_timeintervals_raises
    (epochs_min epochs_max : List (String × List ℚ)) :
    deriveTimeintervals epochs_min epochs_max
      = .error "start must be numeric or datetime-like" := rfl

/-! ## Hemisphere grid (gnssvod/hemistats/hemistats.py)

Cell coordinates are exact rationals: all azimuth/elevation arithmetic of
`hemibuild` is affine.  The only transcendental quantity is the per-ring
cell count `round(ring_area/cell_area)`, modelled over ℝ. -/

/-- One cell row of the grid dataframe: center (azi, ele) and the cell's
azimuth/elevation bounds. -/
structure Cell where
  azi : ℚ
  ele : ℚ
  azimin : ℚ
  azimax : ℚ
  elemin : ℚ
  elemax : ℚ
deriving DecidableEq

/-- `np.arange(start, stop, step)`: `max 0 ⌈(stop-start)/step⌉` values
`start + i*step`. (`step = 0` raises `ZeroDivisionError` in numpy and is
not modelled; division by zero in ℚ makes the list empty instead.) -/
def arangeQ (start stop step : ℚ) : List ℚ :=
  (List.range (Int.toNat ⌈(stop - start) / step⌉)).map
    (fun i : ℕ => start + (i : ℚ) * step)

/-- `np.linspace(a, b, m)`: `m` evenly spaced samples from `a` to `b`
inclusive. -/
def linspaceQ (a b : ℚ) (m : ℕ) : List ℚ :=
  if m = 1 then [a]
  else (List.range m).map (fun i : ℕ => a + (i : ℚ) * ((b - a) / ((m : ℚ) - 1)))

/-- Line 135: `cell_area = 2π(1 - cos(deg2rad(angular_resolution/2)))`. -/
noncomputable def cell_area (ar : ℚ) : ℝ :=
  2 * Real.pi * (1 - Real.cos (deg2rad ((ar : ℝ) / 2)))

/-- Line 158: solid angle of the ring between two polar radii. -/
noncomputable def ring_area (inner outer : ℚ) : ℝ :=
  2 * Real.pi * (1 - Real.cos (deg2rad (outer : ℝ)))
    - 2 * Real.pi * (1 - Real.cos (deg2rad (inner : ℝ)))

/-- Line 160: `numcells = round(ring_area/cell_area)`. Python's `round`
rounds half to even while Mathlib's `round` rounds half up; they differ
only at exact half-integers and no result here depends on tie behaviour.
(With `numcells = 0` the Python code would raise at line 162/166; the
partition theorems below therefore assume at least one cell per ring.) -/
noncomputable def numcells (ar inner outer : ℚ) : ℕ :=
  (round (ring_area inner outer / cell_area ar)).toNat

/-- Line 168: the azimuth edges `np.linspace(0, 360-azispan, numcells)` of
one ring. -/
def ringAzimin (m : ℕ) : List ℚ := linspaceQ 0 (360 - 360 / (m : ℚ)) m

/-- Lines 168-174: the cells of one ring. -/
def ringCells (ar inner outer : ℚ) (m : ℕ) : List Cell :=
  let azispan : ℚ := 360 / (m : ℚ)
  let azimin := ringAzimin m
  let azimax := azimin.drop 1 ++ [(360 : ℚ)]
  let azictr := linspaceQ (azispan / 2) (360 - azispan / 2) m
  (List.range m).map (fun j =>
    Cell.mk (azictr.getD j 0) (90 - (inner + ar / 2))
      (azimin.getD j 0) (azimax.getD j 0) (90 - outer) (90 - inner))

/-- The per-ring accumulator lists of lines 137-141. -/
structure RingsAcc where
  cells : List Cell
  elelims : List ℚ
  azilims : List (List ℚ)
  CellIDs : List (List ℕ)

/-- Lines 154-177: the ring loop, threading `nextCellID`; each entry of the
input pairs one `(inner_radius, outer_radius)` pair with its cell count. -/
def buildRings (ar : ℚ) : List ((ℚ × ℚ) × ℕ) → ℕ → RingsAcc
  | [], _ => RingsAcc.mk [] [] [] []
  | (p, m) :: rest, nextID =>
    let acc := buildRings ar rest (nextID + m)
    RingsAcc.mk (ringCells ar p.1 p.2 m ++ acc.cells)
      ((90 - p.2) :: acc.elelims)
      (ringAzimin m :: acc.azilims)
      ((List.range m).map (fun j => nextID + j) :: acc.CellIDs)

/-- The hemispheric grid object of lines 21-32. -/
structure Hemi where
  angular_resolution : ℚ
  grid : List Cell
  elelims : List ℚ
  azilims : List (List ℚ)
  CellIDs : List (List ℕ)

/-- Lines 143-148: the zenith cap cell. -/
def capCell (ar : ℚ) : Cell := Cell.mk 0 90 0 360 (90 - ar / 2) 90

/-- Line 133's consecutive `(inner_radius, outer_radius)` pairs: the loop
enumerates `ringlims[1:]` as outer radii with `ringlims[iring]` inner. -/
def ringPairs (ar cutoff : ℚ) : List (ℚ × ℚ) :=
  let ringlims := arangeQ (ar / 2) (90 - cutoff) ar
  ringlims.zip (ringlims.drop 1)

/-- The cell count of every ring, in ring order. -/
noncomputable def ringMs (ar cutoff : ℚ) : List ℕ :=
  (ringPairs ar cutoff).map (fun p => numcells ar p.1 p.2)

/-- Each ring's radius pair together with its cell count. -/
noncomputable def ringEntries (ar cutoff : ℚ) : List ((ℚ × ℚ) × ℕ) :=
  (ringPairs ar cutoff).zip (ringMs ar cutoff)

/-- Lines 110-182: `hemibuild(angular_resolution, cutoff)`. The grid list
position of a cell is its CellID (`reset_index` + `rename_axis('CellID')`
of line 179). -/
noncomputable def hemibuild (ar cutoff : ℚ) : Hemi :=
  let acc := buildRings ar (ringEntries ar cutoff) 1
  Hemi.mk ar (capCell ar :: acc.cells) ((90 - ar / 2) :: acc.elelims)
    ([0] :: acc.azilims) ([0] :: acc.CellIDs)

lemma ringPairs_eq_nil (ar cutoff : ℚ)
    (hx : (90 - cutoff - ar / 2) / ar < 0) : ringPairs ar cutoff = [] := by
  have hceil : ⌈(90 - cutoff - ar / 2) / ar⌉ ≤ (0 : ℤ) :=
    Int.ceil_le.mpr (by exact_mod_cast hx.le)
  have hn : (⌈(90 - cutoff - ar / 2) / ar⌉).toNat = 0 :=
    Int.toNat_of_nonpos hceil
  unfold ringPairs arangeQ
  simp [hn]

lemma hemibuild_grid_of_no_pairs (ar cutoff : ℚ)
    (h : ringPairs ar cutoff = []) :
    (hemibuild ar cutoff).grid = [capCell ar] := by
  unfold hemibuild ringEntries ringMs
  rw [h]
  rfl

/-- C2 (counterexample): `hemibuild(10, 90)` does not raise any
configuration error; it returns a degenerate grid holding only the zenith
cap cell (the source contains no parameter validation at all — the ring
loop simply runs zero times). -/
theorem hemibuild_invalid_cutoff_returns_grid :
    (hemibuild 10 90).grid = [capCell 10]
      ∧ (hemibuild 10 90).grid.length = 1 := by
  have h := hemibuild_grid_of_no_pairs 10 90
    (ringPairs_eq_nil 10 90 (by norm_num))
  exact ⟨h, by rw [h]; rfl⟩

/-- C2 (amended): `hemibuild` performs no parameter validation: for
`cutoff ≥ 90` (with positive resolution) and likewise for a negative
resolution (with `cutoff < 90`), no error is raised and the call returns a
degenerate grid consisting of the zenith cap only. (For
`angular_resolution = 0` numpy's `arange` raises `ZeroDivisionError`, an
incidental low-level error rather than a configuration check.) -/
theorem hemibuild_no_validation (ar cutoff : ℚ)
    (h : (0 < ar ∧ 90 ≤ cutoff) ∨ (ar < 0 ∧ cutoff < 90)) :
    (hemibuild ar cutoff).grid = [capCell ar] := by
  apply hemibuild_grid_of_no_pairs
  apply ringPairs_eq_nil
  rcases h with ⟨har, hcut⟩ | ⟨har, hcut⟩
  · apply div_neg_of_neg_of_pos _ har
    nlinarith
  · apply div_neg_of_pos_of_neg _ har
    nlinarith

/-- C2 (witness): a negative angular resolution also silently yields the
cap-only degenerate grid. -/
theorem hemibuild_no_validation_witness :
    (hemibuild (-5) 0).grid = [capCell (-5)] :=
  hemibuild_no_validation (-5) 0 (Or.inr ⟨by norm_num, by norm_num⟩)

/-! ### Cell assignment (`Hemi.add_CellID`, lines 47-102) -/

/-- `np.mod(a, b)` for rationals (result has the divisor's sign, matching
Python semantics): `a - b⌊a/b⌋`. -/
def qmod (a b : ℚ) : ℚ := a - b * ⌊a / b⌋

/-- `pd.cut(x, bins, right=True)` with ascending bin edges: the index of
the left-open right-closed interval containing `x`, if any. -/
def cutIdxRC (bins : List ℚ) (x : ℚ) : Option ℕ :=
  (List.range (bins.length - 1)).find?
    (fun k => decide (bins.getD k 0 < x) && decide (x ≤ bins.getD (k + 1) 0))

/-- `pd.cut(x, bins, right=False)`: the index of the left-closed right-open
interval containing `x`, if any. -/
def cutIdxRO (bins : List ℚ) (x : ℚ) : Option ℕ :=
  (List.range (bins.length - 1)).find?
    (fun k => decide (bins.getD k 0 ≤ x) && decide (x < bins.getD (k + 1) 0))

/-- Lines 62-93 of `add_CellID` for one (azimuth, elevation) pair: the
azimuth is normalized by modulo (line 67), the elevation is cut with bins
`np.concatenate((np.flip(self.elelims),[90]))` and flipped labels
(lines 69-71), and the selected band's own azimuth edges (right-open,
lines 84-87) give the index into that band's CellID array (line 89). -/
def assignCell (h : Hemi) (az ele : ℚ) : Option ℕ :=
  let az' := qmod (az + 360 * 10) 360
  match cutIdxRC (h.elelims.reverse ++ [90]) ele with
  | none => none
  | some k =>
    let label := h.elelims.length - 1 - k
    match cutIdxRO (h.azilims.getD label [] ++ [360]) az' with
    | none => none
    | some j => some ((h.CellIDs.getD label []).getD j 0)

lemma qmod_nonneg (a b : ℚ) (hb : 0 < b) : 0 ≤ qmod a b := by
  unfold qmod
  have h := Int.floor_le (a / b)
  have : b * ⌊a / b⌋ ≤ b * (a / b) := by
    exact mul_le_mul_of_nonneg_left h hb.le
  rw [mul_div_cancel₀ a hb.ne'] at this
  linarith

lemma qmod_lt (a b : ℚ) (hb : 0 < b) : qmod a b < b := by
  unfold qmod
  have h := Int.lt_floor_add_one (a / b)
  have : b * (a / b) < b * (⌊a / b⌋ + 1) :=
    mul_lt_mul_of_pos_left h hb
  rw [mul_div_cancel₀ a hb.ne'] at this
  have hb' : b * (⌊a / b⌋ + 1) = b * ⌊a / b⌋ + b := by ring
  linarith [hb' ▸ this]

lemma qmod_add_right (a b : ℚ) (hb : b ≠ 0) : qmod (a + b) b = qmod a b := by
  unfold qmod
  rw [show (a + b) / b = a / b + 1 by field_simp]
  rw [Int.floor_add_one]
  push_cast
  ring

lemma qmod_eq_self (a : ℚ) (h0 : 0 ≤ a) (h1 : a < 360) :
    qmod (a + 360 * 10) 360 = a := by
  unfold qmod
  have h2 : (a + 360 * 10) / 360 = a / 360 + ((10 : ℤ) : ℚ) := by
    push_cast; ring
  rw [h2, Int.floor_add_int]
  have h3 : ⌊a / 360⌋ = 0 := by
    apply Int.floor_eq_zero_iff.mpr
    rw [Set.mem_Ico]
    constructor
    · positivity
    · rw [div_lt_one (by norm_num : (0:ℚ) < 360)]
      exact h1
  rw [h3]
  push_cast
  ring

lemma find?_range' (p : ℕ → Bool) :
    ∀ (n s t : ℕ), s ≤ t → t < s + n → p t = true →
      (∀ k, s ≤ k → k < t → p k = false) →
      (List.range' s n).find? p = some t := by
  intro n
  induction n with
  | zero => intro s t h1 h2; omega
  | succ n ih =>
    intro s t h1 h2 hp hmin
    rw [List.range'_succ]
    by_cases hst : s = t
    · subst hst
      rw [List.find?_cons_of_pos _ hp]
    · have hs : p s = false := hmin s le_rfl (lt_of_le_of_ne h1 hst)
      rw [List.find?_cons_of_neg _ (by simp [hs])]
      exact ih (s + 1) t (by omega) (by omega) hp
        (fun k hk1 hk2 => hmin k (by omega) hk2)

lemma find?_range (p : ℕ → Bool) (n t : ℕ) (ht : t < n) (hp : p t = true)
    (hmin : ∀ k < t, p k = false) :
    (List.range n).find? p = some t := by
  rw [List.range_eq_range']
  exact find?_range' p n 0 t (Nat.zero_le t) (by omega) hp
    (fun k _ hk => hmin k hk)

lemma cutIdxRC_eq_some (bins : List ℚ) (x : ℚ) (t : ℕ)
    (ht : t + 1 < bins.length)
    (h1 : bins.getD t 0 < x) (h2 : x ≤ bins.getD (t + 1) 0)
    (hbefore : ∀ k < t, ¬(bins.getD k 0 < x ∧ x ≤ bins.getD (k + 1) 0)) :
    cutIdxRC bins x = some t := by
  unfold cutIdxRC
  apply find?_range _ _ t (by omega)
  · simp only [Bool.and_eq_true, decide_eq_true_eq]
    exact ⟨h1, h2⟩
  · intro k hk
    have := hbefore k hk
    simp only [Bool.and_eq_false_iff, decide_eq_false_iff_not]
    by_cases hc : bins.getD k 0 < x
    · exact Or.inr (fun hx => this ⟨hc, hx⟩)
    · exact Or.inl hc

lemma cutIdxRO_eq_some (bins : List ℚ) (x : ℚ) (t : ℕ)
    (ht : t + 1 < bins.length)
    (h1 : bins.getD t 0 ≤ x) (h2 : x < bins.getD (t + 1) 0)
    (hbefore : ∀ k < t, ¬(bins.getD k 0 ≤ x ∧ x < bins.getD (k + 1) 0)) :
    cutIdxRO bins x = some t := by
  unfold cutIdxRO
  apply find?_range _ _ t (by omega)
  · simp only [Bool.and_eq_true, decide_eq_true_eq]
    exact ⟨h1, h2⟩
  · intro k hk
    have := hbefore k hk
    simp only [Bool.and_eq_false_iff, decide_eq_false_iff_not]
    by_cases hc : bins.getD k 0 ≤ x
    · exact Or.inr (fun hx => this ⟨hc, hx⟩)
    · exact Or.inl hc

lemma cutIdxRC_eq_none (bins : List ℚ) (x : ℚ)
    (h : ∀ k, k + 1 < bins.length → ¬(bins.getD k 0 < x ∧ x ≤ bins.getD (k + 1) 0)) :
    cutIdxRC bins x = none := by
  unfold cutIdxRC
  rw [List.find?_eq_none]
  intro k hk
  rw [List.mem_range] at hk
  have := h k (by omega)
  simp only [Bool.and_eq_true, decide_eq_true_eq]
  exact fun hc => this ⟨hc.1, hc.2⟩

lemma getD_eq_getElem' {α : Type} (l : List α) (d : α) (n : ℕ)
    (h : n < l.length) : l.getD n d = l[n] := by
  rw [List.getD_eq_getElem?_getD, List.getElem?_eq_getElem h]
  rfl

lemma getD_mem_of_lt {α : Type} (l : List α) (d : α) (n : ℕ)
    (h : n < l.length) : l.getD n d ∈ l := by
  rw [getD_eq_getElem' l d n h]
  exact List.getElem_mem h

lemma zip_self_map {α β : Type} (l : List α) (f : α → β) :
    l.zip (l.map f) = l.map (fun a => (a, f a)) := by
  induction l with
  | nil => rfl
  | cons a l ih => simp [ih]

lemma buildRings_elelims (ar : ℚ) :
    ∀ (l : List ((ℚ × ℚ) × ℕ)) (nid : ℕ),
      (buildRings ar l nid).elelims = l.map (fun x => 90 - x.1.2) := by
  intro l
  induction l with
  | nil => intro nid; rfl
  | cons e rest ih =>
    intro nid
    cases e with
    | mk p m => simp [buildRings, ih]

lemma buildRings_azilims (ar : ℚ) :
    ∀ (l : List ((ℚ × ℚ) × ℕ)) (nid : ℕ),
      (buildRings ar l nid).azilims = l.map (fun x => ringAzimin x.2) := by
  intro l
  induction l with
  | nil => intro nid; rfl
  | cons e rest ih =>
    intro nid
    cases e with
    | mk p m => simp [buildRings, ih]

lemma hemibuild_elelims (ar cutoff : ℚ) :
    (hemibuild ar cutoff).elelims
      = (90 - ar / 2) :: (ringPairs ar cutoff).map (fun p => 90 - p.2) := by
  show (90 - ar / 2) ::
      (buildRings ar (ringEntries ar cutoff) 1).elelims
    = _
  rw [buildRings_elelims, ringEntries, ringMs, zip_self_map, List.map_map]
  rfl

lemma hemibuild_azilims (ar cutoff : ℚ) :
    (hemibuild ar cutoff).azilims
      = [0] :: (ringEntries ar cutoff).map (fun x => ringAzimin x.2) := by
  show [0] ::
      (buildRings ar (ringEntries ar cutoff) 1).azilims
    = _
  rw [buildRings_azilims]

lemma arangeQ_mem_pos (s e st : ℚ) (hs : 0 < s) (hst : 0 < st) :
    ∀ x ∈ arangeQ s e st, 0 < x := by
  intro x hx
  unfold arangeQ at hx
  rcases List.mem_map.mp hx with ⟨i, _, rfl⟩
  have hi : (0 : ℚ) ≤ (i : ℚ) * st := mul_nonneg (Nat.cast_nonneg i) hst.le
  linarith

lemma ringPairs_snd_pos (ar cutoff : ℚ) (har : 0 < ar) :
    ∀ p ∈ ringPairs ar cutoff, 0 < p.2 := by
  intro p hp
  unfold ringPairs at hp
  cases p with
  | mk a b =>
    have hb := (List.of_mem_zip hp).2
    have hb' := List.mem_of_mem_drop hb
    exact arangeQ_mem_pos (ar / 2) (90 - cutoff) ar (by linarith) har b hb'

lemma hemibuild_elelims_lt (ar cutoff : ℚ) (har : 0 < ar) :
    ∀ x ∈ (hemibuild ar cutoff).elelims, x < 90 := by
  rw [hemibuild_elelims]
  intro x hx
  rcases List.mem_cons.mp hx with rfl | hx'
  · linarith
  · rcases List.mem_map.mp hx' with ⟨p, hp, rfl⟩
    have := ringPairs_snd_pos ar cutoff har p hp
    linarith

lemma hemibuild_elelims_ne_nil (ar cutoff : ℚ) :
    (hemibuild ar cutoff).elelims ≠ [] := by
  rw [hemibuild_elelims]
  exact List.cons_ne_nil _ _

/-- C10: elevation bands are left-open right-closed — a row whose elevation
equals the grid's lowest elevation edge (the minimum of `elelims`) gets no
CellID, while elevation exactly 90 is assigned the zenith cap CellID 0 for
any azimuth; azimuth is first reduced modulo 360 (so azimuth az+360, in
particular 360 itself, behaves exactly like az) and its bins are
right-open. -/
theorem add_CellID_edge_binning (ar cutoff : ℚ) (har : 0 < ar) :
    (∀ az x, x ∈ (hemibuild ar cutoff).elelims →
        (∀ y ∈ (hemibuild ar cutoff).elelims, x ≤ y) →
        assignCell (hemibuild ar cutoff) az x = none)
      ∧ (∀ az, assignCell (hemibuild ar cutoff) az 90 = some 0)
      ∧ (∀ az ele, assignCell (hemibuild ar cutoff) (az + 360) ele
          = assignCell (hemibuild ar cutoff) az ele) := by
  set h := hemibuild ar cutoff with hdef
  refine ⟨?_, ?_, ?_⟩
  · intro az x hx hmin
    have hcut : cutIdxRC (h.elelims.reverse ++ [90]) x = none := by
      apply cutIdxRC_eq_none
      intro k hk
      rintro ⟨hlt, -⟩
      have hkmem : (h.elelims.reverse ++ [90]).getD k 0
          ∈ h.elelims.reverse ++ [90] :=
        getD_mem_of_lt _ _ _ (by omega)
      rcases List.mem_append.mp hkmem with hmem | hmem
      · have := hmin _ (List.mem_reverse.mp hmem)
        linarith
      · have h90 : (h.elelims.reverse ++ [90]).getD k 0 = 90 := by
          rcases List.mem_singleton.mp hmem with heq
          exact heq
        have hx90 := hemibuild_elelims_lt ar cutoff har x hx
        rw [h90] at hlt
        linarith
    simp only [assignCell, hcut]
  · intro az
    have hne := hemibuild_elelims_ne_nil ar cutoff
    have hlen : 1 ≤ h.elelims.length := by
      cases hE : h.elelims with
      | nil => exact absurd hE hne
      | cons a l => simp
    have hcut : cutIdxRC (h.elelims.reverse ++ [90]) 90
        = some (h.elelims.length - 1) := by
      apply cutIdxRC_eq_some
      · simp; omega
      · have hk : h.elelims.length - 1 < h.elelims.reverse.length := by
          simp; omega
        rw [List.getD_append _ _ _ _ hk]
        have hmem : h.elelims.reverse.getD (h.elelims.length - 1) 0
            ∈ h.elelims.reverse := getD_mem_of_lt _ _ _ hk
        exact hemibuild_elelims_lt ar cutoff har _ (List.mem_reverse.mp hmem)
      · have : h.elelims.length - 1 + 1 = h.elelims.reverse.length := by
          simp; omega
        rw [List.getD_append_right _ _ _ _ (le_of_eq this.symm), this]
        simp
      · intro k hk
        rintro ⟨-, hge⟩
        have hk1 : k + 1 < h.elelims.reverse.length := by simp; omega
        rw [List.getD_append _ _ _ _ hk1] at hge
        have hmem : h.elelims.reverse.getD (k + 1) 0 ∈ h.elelims.reverse :=
          getD_mem_of_lt _ _ _ hk1
        have := hemibuild_elelims_lt ar cutoff har _ (List.mem_reverse.mp hmem)
        linarith
    have hlabel : h.elelims.length - 1 - (h.elelims.length - 1) = 0 := by omega
    have hazl : h.azilims.getD 0 [] = [0] := by
      rw [hdef, hemibuild_azilims]
      rfl
    have hcid : h.CellIDs.getD 0 [] = [0] := by
      rw [hdef]
      show ([0] :: (buildRings ar _ 1).CellIDs).getD 0 [] = [0]
      rfl
    have hro : cutIdxRO (([0] : List ℚ) ++ [360]) (qmod (az + 360 * 10) 360)
        = some 0 := by
      apply cutIdxRO_eq_some
      · simp
      · exact qmod_nonneg _ _ (by norm_num)
      · simpa using qmod_lt (az + 360 * 10) 360 (by norm_num)
      · intro k hk; omega
    simp only [assignCell, hcut, hlabel, hazl, hro, hcid]
    rfl
  · intro az ele
    have haz : qmod (az + 360 + 360 * 10) 360 = qmod (az + 360 * 10) 360 := by
      rw [show az + 360 + 360 * 10 = az + 360 * 10 + 360 by ring]
      exact qmod_add_right _ _ (by norm_num)
    simp only [assignCell, haz]

/-- C10 (witness): for the grid `hemibuild(10, 0)` (lowest elevation edge
5): elevation exactly 5 is unassigned, elevation 90 maps to CellID 0 at
azimuth 123, and azimuth 483 = 123 + 360 behaves like azimuth 123. -/
lemma ringPairs_ten : ringPairs 10 0
    = [(5, 15), (15, 25), (25, 35), (35, 45), (45, 55), (55, 65),
       (65, 75), (75, 85)] := by
  have hc : (⌈((90 : ℚ) - 0 - 10 / 2) / 10⌉ : ℤ) = 9 := by
    rw [Int.ceil_eq_iff]
    constructor <;> norm_num
  have hc9 : (⌈((90 : ℚ) - 0 - 10 / 2) / 10⌉).toNat = 9 := by rw [hc]; rfl
  simp only [ringPairs, arangeQ]
  rw [hc9]
  norm_num [List.range_succ]

lemma hemibuild_ten_elelims : (hemibuild 10 0).elelims
    = [85, 75, 65, 55, 45, 35, 25, 15, 5] := by
  rw [hemibuild_elelims, ringPairs_ten]
  norm_num

lemma ringPairs_onetwenty : ringPairs 120 0 = [] := by
  have hc : (⌈((90 : ℚ) - 0 - 120 / 2) / 120⌉ : ℤ) = 1 := by
    rw [Int.ceil_eq_iff]
    constructor <;> norm_num
  have hc1 : (⌈((90 : ℚ) - 0 - 120 / 2) / 120⌉).toNat = 1 := by rw [hc]; rfl
  simp only [ringPairs, arangeQ]
  rw [hc1]
  norm_num [List.range_succ]

theorem add_CellID_edge_binning_witness :
    assignCell (hemibuild 10 0) 123 5 = none
      ∧ assignCell (hemibuild 10 0) 123 90 = some 0
      ∧ assignCell (hemibuild 10 0) (123 + 360) 45
          = assignCell (hemibuild 10 0) 123 45 := by
  have h := add_CellID_edge_binning 10 0 (by norm_num)
  refine ⟨?_, h.2.1 123, h.2.2 123 45⟩
  apply h.1
  · rw [hemibuild_ten_elelims]; norm_num
  · rw [hemibuild_ten_elelims]; intro y hy; fin_cases hy <;> norm_num

/-! ### The dataframe-level `add_CellID` (frame effects) -/

/-- A pandas DataFrame: column names plus rows of (index value, column
values); `none` models NaN.  The join of lines 99/102 aligns on the frame
index, which is unique for the (Epoch, SV)-indexed tables this method is
applied to, so rows are modelled positionally. -/
structure DFrame where
  cols : List String
  rows : List (ℕ × (String → Option ℚ))

/-- The CellID of one row (lines 63-93): a row missing azimuth or elevation
is removed from the working copy at line 65 and therefore gets no CellID;
otherwise the assignment of lines 67-93 applies. -/
def rowCellID (h : Hemi) (aziname elename : String)
    (r : String → Option ℚ) : Option ℕ :=
  match r aziname, r elename with
  | some az, some ele => assignCell h az ele
  | _, _ => none

/-- Lines 47-102 of `Hemi.add_CellID`: validate the azimuth column (the
check at line 59 re-tests `aziname`; the elevation column is never actually
checked); drop any existing `idname` column (lines 94-95); join the
computed CellID series as a new last column, keeping only assigned rows
when `drop` is true (inner join, line 99) and every row otherwise (left
join, line 102). -/
def add_CellID (h : Hemi) (df : DFrame)
    (aziname elename idname : String) (drop : Bool) : Except String DFrame :=
  if ¬ (aziname ∈ df.cols) then
    .error "No column"
  else
    let base := if idname ∈ df.cols then df.cols.erase idname else df.cols
    let rows' := df.rows.map (fun p =>
      (p.1, fun c => if c = idname
          then (rowCellID h aziname elename p.2).map (fun n => (n : ℚ))
          else p.2 c))
    let rows'' := if drop
      then rows'.filter (fun p => (p.2 idname).isSome)
      else rows'
    .ok (DFrame.mk (base ++ [idname]) rows'')

/-- C9: `add_CellID` succeeds whenever the azimuth column exists; its
output carries the input columns (any pre-existing `idname` column being
silently dropped) plus `idname` as the new last column, with no duplicate
column name; every output row comes from an input row with the same index
and with every column other than `idname` unchanged.  (The method never
writes to the `Hemi` object, so the grid fields are unchanged by
construction of the functional embedding.) -/
theorem add_CellID_frame_properties (h : Hemi) (df : DFrame)
    (aziname elename idname : String) (drop : Bool)
    (han : aziname ∈ df.cols) (hnodup : df.cols.Nodup) :
    ∃ df', add_CellID h df aziname elename idname drop = .ok df'
      ∧ df'.cols = (if idname ∈ df.cols then df.cols.erase idname
          else df.cols) ++ [idname]
      ∧ df'.cols.Nodup ∧ idname ∈ df'.cols
      ∧ (∀ p ∈ df'.rows, ∃ q ∈ df.rows, q.1 = p.1
          ∧ ∀ c, c ≠ idname → p.2 c = q.2 c) := by
  unfold add_CellID
  rw [if_neg (not_not_intro han)]
  refine ⟨_, rfl, rfl, ?_, ?_, ?_⟩
  · have hbase : (if idname ∈ df.cols then df.cols.erase idname
        else df.cols).Nodup := by
      by_cases hid : idname ∈ df.cols
      · rw [if_pos hid]; exact hnodup.erase idname
      · rw [if_neg hid]; exact hnodup
    have hnotin : idname ∉ (if idname ∈ df.cols then df.cols.erase idname
        else df.cols) := by
      by_cases hid : idname ∈ df.cols
      · rw [if_pos hid]
        intro hmem
        exact ((hnodup.mem_erase_iff).mp hmem).1 rfl
      · rw [if_neg hid]; exact hid
    rw [List.nodup_append]
    exact ⟨hbase, List.nodup_singleton idname,
      fun a ha hmem => hnotin ((List.mem_singleton.mp hmem) ▸ ha)⟩
  · exact List.mem_append_right _ (List.mem_singleton.mpr rfl)
  · intro p hp
    have hp' : p ∈ df.rows.map (fun p =>
        (p.1, fun c => if c = idname
            then (rowCellID h aziname elename p.2).map (fun n => (n : ℚ))
            else p.2 c)) := by
      by_cases hdrop : drop
      · rw [if_pos hdrop] at hp
        exact List.mem_of_mem_filter hp
      · rw [if_neg hdrop] at hp
        exact hp
    rcases List.mem_map.mp hp' with ⟨q, hq, rfl⟩
    exact ⟨q, hq, rfl, fun c hc => by simp [hc]⟩

/-- C9 (witness): a one-row frame that already has a CellID column: the
call succeeds, the old CellID column is dropped and replaced as the unique
last column, and the row's other columns are untouched. -/
theorem add_CellID_frame_properties_witness :
    ∃ df', add_CellID (hemibuild 10 0)
          (DFrame.mk ["Azimuth", "Elevation", "CellID", "S1"]
            [(0, fun _ => none)])
          "Azimuth" "Elevation" "CellID" false = .ok df'
      ∧ df'.cols = (if "CellID" ∈ ["Azimuth", "Elevation", "CellID", "S1"]
          then ["Azimuth", "Elevation", "CellID", "S1"].erase "CellID"
          else ["Azimuth", "Elevation", "CellID", "S1"]) ++ ["CellID"]
      ∧ df'.cols.Nodup ∧ "CellID" ∈ df'.cols
      ∧ (∀ p ∈ df'.rows,
          ∃ q ∈ (DFrame.mk ["Azimuth", "Elevation", "CellID", "S1"]
            [((0 : ℕ), fun _ => (none : Option ℚ))]).rows, q.1 = p.1
          ∧ ∀ c, c ≠ "CellID" → p.2 c = q.2 c) :=
  add_CellID_frame_properties (hemibuild 10 0)
    (DFrame.mk ["Azimuth", "Elevation", "CellID", "S1"] [(0, fun _ => none)])
    "Azimuth" "Elevation" "CellID" false (by decide) (by decide)

/-! ### Index characterization of the grid structure -/

/-- Default entry for `getD` on ring entry lists. -/
def dfltEntry : (ℚ × ℚ) × ℕ := ((0, 0), 0)

/-- The polar radius of ring boundary `i`: `ringlims[i] = ar/2 + i*ar`. -/
def ringRadius (ar : ℚ) (i : ℕ) : ℚ := ar / 2 + (i : ℚ) * ar

lemma arangeQ_getD (s e st : ℚ) (i : ℕ) (hi : i < (arangeQ s e st).length) :
    (arangeQ s e st).getD i 0 = s + (i : ℚ) * st := by
  unfold arangeQ at hi ⊢
  rw [getD_eq_getElem' _ _ _ hi]
  simp

lemma ringPairs_length (ar cutoff : ℚ) :
    (ringPairs ar cutoff).length
      = (arangeQ (ar / 2) (90 - cutoff) ar).length - 1 := by
  simp only [ringPairs, List.length_zip, List.length_drop]
  omega

lemma ringPairs_getD (ar cutoff : ℚ) (i : ℕ)
    (hi : i < (ringPairs ar cutoff).length) :
    (ringPairs ar cutoff).getD i (0, 0)
      = (ringRadius ar i, ringRadius ar (i + 1)) := by
  have hlen := ringPairs_length ar cutoff
  have hi1 : 1 + i < (arangeQ (ar / 2) (90 - cutoff) ar).length := by omega
  have hi0 : i < (arangeQ (ar / 2) (90 - cutoff) ar).length := by omega
  rw [getD_eq_getElem' _ _ _ hi]
  have hsome : ((arangeQ (ar / 2) (90 - cutoff) ar).zip
      ((arangeQ (ar / 2) (90 - cutoff) ar).drop 1))[i]?
      = some (ringPairs ar cutoff)[i] := List.getElem?_eq_getElem hi
  rw [List.getElem?_zip_eq_some] at hsome
  obtain ⟨h1, h2⟩ := hsome
  rw [List.getElem?_eq_getElem hi0] at h1
  rw [List.getElem?_drop, List.getElem?_eq_getElem hi1] at h2
  have hf : (arangeQ (ar / 2) (90 - cutoff) ar)[i]
      = (ringPairs ar cutoff)[i].1 := Option.some.inj h1
  have hs : (arangeQ (ar / 2) (90 - cutoff) ar)[1 + i]
      = (ringPairs ar cutoff)[i].2 := Option.some.inj h2
  refine Prod.ext ?_ ?_
  · rw [← hf, ← getD_eq_getElem' _ 0 _ hi0, arangeQ_getD _ _ _ _ hi0]
    rfl
  · rw [← hs, ← getD_eq_getElem' _ 0 _ hi1, arangeQ_getD _ _ _ _ hi1]
    unfold ringRadius
    push_cast
    ring

lemma ringMs_length (ar cutoff : ℚ) :
    (ringMs ar cutoff).length = (ringPairs ar cutoff).length := by
  simp [ringMs]

lemma ringEntries_length (ar cutoff : ℚ) :
    (ringEntries ar cutoff).length = (ringPairs ar cutoff).length := by
  simp [ringEntries, ringMs]

lemma ringEntries_getD (ar cutoff : ℚ) (i : ℕ)
    (hi : i < (ringPairs ar cutoff).length) :
    (ringEntries ar cutoff).getD i dfltEntry
      = ((ringPairs ar cutoff).getD i (0, 0), (ringMs ar cutoff).getD i 0) := by
  have h1 : i < (ringEntries ar cutoff).length := by
    rw [ringEntries_length]; exact hi
  have h2 : i < (ringMs ar cutoff).length := by
    rw [ringMs_length]; exact hi
  rw [getD_eq_getElem' _ _ _ h1, getD_eq_getElem' _ _ _ hi,
    getD_eq_getElem' _ _ _ h2]
  have hsome : ((ringPairs ar cutoff).zip (ringMs ar cutoff))[i]?
      = some (ringEntries ar cutoff)[i] := List.getElem?_eq_getElem h1
  rw [List.getElem?_zip_eq_some] at hsome
  obtain ⟨ha, hb⟩ := hsome
  rw [List.getElem?_eq_getElem hi] at ha
  rw [List.getElem?_eq_getElem h2] at hb
  refine Prod.ext ?_ ?_
  · exact (Option.some.inj ha).symm
  · exact (Option.some.inj hb).symm

lemma ringAzimin_length (m : ℕ) : (ringAzimin m).length = m := by
  unfold ringAzimin linspaceQ
  split
  · simp [*]
  · simp

lemma ringAzimin_getD (m j : ℕ) (hj : j < m) :
    (ringAzimin m).getD j 0 = (j : ℚ) * (360 / (m : ℚ)) := by
  unfold ringAzimin linspaceQ
  by_cases h1 : m = 1
  · subst h1
    have hj0 : j = 0 := by omega
    subst hj0
    simp
  · rw [if_neg h1]
    have hm2 : 2 ≤ m := by omega
    have hj' : j < ((List.range m).map
        (fun i : ℕ => (0 : ℚ) + (i : ℚ)
          * ((360 - 360 / (m : ℚ) - 0) / ((m : ℚ) - 1)))).length := by
      simpa using hj
    rw [getD_eq_getElem' _ _ _ hj']
    simp only [List.getElem_map, List.getElem_range]
    have hmq : (0 : ℚ) < (m : ℚ) := by exact_mod_cast (show 0 < m by omega)
    have hm1 : ((m : ℚ) - 1) ≠ 0 := by
      have : (2 : ℚ) ≤ (m : ℚ) := by exact_mod_cast hm2
      linarith
    field_simp
    ring

lemma ringCenter_getD (m j : ℕ) (hj : j < m) :
    (linspaceQ (360 / (m : ℚ) / 2) (360 - 360 / (m : ℚ) / 2) m).getD j 0
      = 360 / (m : ℚ) / 2 + (j : ℚ) * (360 / (m : ℚ)) := by
  unfold linspaceQ
  by_cases h1 : m = 1
  · subst h1
    have hj0 : j = 0 := by omega
    subst hj0
    simp
  · rw [if_neg h1]
    have hm2 : 2 ≤ m := by omega
    have hj' : j < ((List.range m).map
        (fun i : ℕ => 360 / (m : ℚ) / 2 + (i : ℚ)
          * ((360 - 360 / (m : ℚ) / 2 - 360 / (m : ℚ) / 2) / ((m : ℚ) - 1)))).length := by
      simpa using hj
    rw [getD_eq_getElem' _ _ _ hj']
    simp only [List.getElem_map, List.getElem_range]
    have hmq : (0 : ℚ) < (m : ℚ) := by exact_mod_cast (show 0 < m by omega)
    have hm1 : ((m : ℚ) - 1) ≠ 0 := by
      have : (2 : ℚ) ≤ (m : ℚ) := by exact_mod_cast hm2
      linarith
    field_simp
    ring

lemma ringAzimax_getD (m j : ℕ) (hm : 1 ≤ m) (hj : j < m) :
    ((ringAzimin m).drop 1 ++ [(360 : ℚ)]).getD j 0
      = ((j : ℚ) + 1) * (360 / (m : ℚ)) := by
  by_cases hlast : j < m - 1
  · have hdl : j < ((ringAzimin m).drop 1).length := by
      rw [List.length_drop, ringAzimin_length]; omega
    rw [List.getD_append _ _ _ _ hdl, getD_eq_getElem' _ _ _ hdl,
      List.getElem_drop]
    rw [← getD_eq_getElem' _ 0 _ (by rw [ringAzimin_length]; omega)]
    rw [ringAzimin_getD m (1 + j) (by omega)]
    push_cast
    ring
  · have hj' : j = m - 1 := by omega
    have hdl : ((ringAzimin m).drop 1).length ≤ j := by
      rw [List.length_drop, ringAzimin_length]; omega
    rw [List.getD_append_right _ _ _ _ hdl, List.length_drop, ringAzimin_length]
    rw [show j - (m - 1) = 0 by omega]
    simp only [List.getD_cons_zero]
    have hjm : ((j : ℚ) + 1) = (m : ℚ) := by
      have : j + 1 = m := by omega
      exact_mod_cast this
    have hmq : ((m : ℚ)) ≠ 0 := by
      have : (0 : ℚ) < (m : ℚ) := by exact_mod_cast hm
      linarith
    rw [hjm]
    field_simp

lemma ringCells_length (ar inner outer : ℚ) (m : ℕ) :
    (ringCells ar inner outer m).length = m := by
  simp [ringCells]

lemma ringCells_getElem (ar inner outer : ℚ) (m j : ℕ) (hm : 1 ≤ m)
    (hj : j < m) (hjl : j < (ringCells ar inner outer m).length) :
    (ringCells ar inner outer m)[j]
      = Cell.mk (360 / (m : ℚ) / 2 + (j : ℚ) * (360 / (m : ℚ)))
          (90 - (inner + ar / 2))
          ((j : ℚ) * (360 / (m : ℚ))) (((j : ℚ) + 1) * (360 / (m : ℚ)))
          (90 - outer) (90 - inner) := by
  simp only [ringCells, List.getElem_map, List.getElem_range]
  rw [ringCenter_getD m j hj, ringAzimin_getD m j hj, ringAzimax_getD m j hm hj]

lemma buildRings_cells (ar : ℚ) :
    ∀ (l : List ((ℚ × ℚ) × ℕ)) (nid : ℕ),
      (buildRings ar l nid).cells
        = (l.map (fun x => ringCells ar x.1.1 x.1.2 x.2)).flatten := by
  intro l
  induction l with
  | nil => intro nid; rfl
  | cons e rest ih =>
    intro nid
    cases e with
    | mk p m => simp [buildRings, ih]

lemma buildRings_CellIDs_getD (ar : ℚ) :
    ∀ (l : List ((ℚ × ℚ) × ℕ)) (nid i : ℕ), i < l.length →
      (buildRings ar l nid).CellIDs.getD i []
        = (List.range (l.getD i dfltEntry).2).map
            (fun j => nid + ((l.take i).map (fun x => x.2)).sum + j) := by
  intro l
  induction l with
  | nil => intro nid i hi; simp at hi
  | cons e rest ih =>
    intro nid i hi
    cases e with
    | mk p m =>
      cases i with
      | zero =>
        simp only [buildRings, List.getD_cons_zero, List.take_zero,
          List.map_nil, List.sum_nil, Nat.add_zero]
      | succ k =>
        simp only [buildRings, List.getD_cons_succ, List.take_succ_cons,
          List.map_cons, List.sum_cons]
        rw [ih (nid + m) k (by simpa using hi)]
        congr 1
        funext j
        omega

lemma flatten_getElem?_decomp {α : Type} :
    ∀ (L : List (List α)) (p : ℕ) (c : α), L.flatten[p]? = some c →
      ∃ i j, i < L.length ∧ j < (L.getD i []).length
        ∧ (L.getD i [])[j]? = some c
        ∧ p = ((L.take i).map List.length).sum + j := by
  intro L
  induction L with
  | nil => intro p c hp; simp at hp
  | cons l rest ih =>
    intro p c hp
    rw [List.flatten_cons] at hp
    by_cases hpl : p < l.length
    · rw [List.getElem?_append_left hpl] at hp
      exact ⟨0, p, by simp, by simpa using hpl, by simpa using hp, by simp⟩
    · rw [List.getElem?_append_right (by omega)] at hp
      obtain ⟨i, j, hi, hj, hc, hpe⟩ := ih (p - l.length) c hp
      refine ⟨i + 1, j, by simpa using hi, by simpa using hj,
        by simpa using hc, ?_⟩
      rw [List.take_succ_cons, List.map_cons, List.sum_cons]
      omega

lemma hemibuild_grid (ar cutoff : ℚ) :
    (hemibuild ar cutoff).grid
      = capCell ar :: ((ringEntries ar cutoff).map
          (fun x => ringCells ar x.1.1 x.1.2 x.2)).flatten := by
  show capCell ar :: (buildRings ar (ringEntries ar cutoff) 1).cells = _
  rw [buildRings_cells]

lemma hemibuild_elelims_length (ar cutoff : ℚ) :
    (hemibuild ar cutoff).elelims.length = (ringPairs ar cutoff).length + 1 := by
  rw [hemibuild_elelims]
  simp

lemma hemibuild_elelims_getD (ar cutoff : ℚ) (i : ℕ)
    (hi : i < (ringPairs ar cutoff).length + 1) :
    (hemibuild ar cutoff).elelims.getD i 0 = 90 - ringRadius ar i := by
  rw [hemibuild_elelims]
  cases i with
  | zero =>
    simp only [List.getD_cons_zero]
    unfold ringRadius
    push_cast
    ring
  | succ k =>
    rw [List.getD_cons_succ]
    have hk : k < (ringPairs ar cutoff).length := by omega
    have hk' : k < ((ringPairs ar cutoff).map (fun p => 90 - p.2)).length := by
      simpa using hk
    rw [getD_eq_getElem' _ _ _ hk', List.getElem_map,
      ← getD_eq_getElem' _ (0, 0) _ hk, ringPairs_getD _ _ _ hk]

lemma hemibuild_azilims_getD (ar cutoff : ℚ) (i : ℕ)
    (hi : i < (ringPairs ar cutoff).length) :
    (hemibuild ar cutoff).azilims.getD (i + 1) []
      = ringAzimin ((ringMs ar cutoff).getD i 0) := by
  rw [hemibuild_azilims, List.getD_cons_succ]
  have hi' : i < ((ringEntries ar cutoff).map (fun x => ringAzimin x.2)).length := by
    rw [List.length_map, ringEntries_length]
    exact hi
  rw [getD_eq_getElem' _ _ _ hi', List.getElem_map,
    ← getD_eq_getElem' _ dfltEntry _ (by rw [ringEntries_length]; exact hi),
    ringEntries_getD _ _ _ hi]

lemma hemibuild_CellIDs_getD (ar cutoff : ℚ) (i : ℕ)
    (hi : i < (ringPairs ar cutoff).length) :
    (hemibuild ar cutoff).CellIDs.getD (i + 1) []
      = (List.range ((ringMs ar cutoff).getD i 0)).map
          (fun j => 1 + (((ringEntries ar cutoff).take i).map
              (fun x => x.2)).sum + j) := by
  show (([0] : List ℕ)
      :: (buildRings ar (ringEntries ar cutoff) 1).CellIDs).getD (i + 1) [] = _
  rw [List.getD_cons_succ,
    buildRings_CellIDs_getD ar _ 1 i (by rw [ringEntries_length]; exact hi),
    ringEntries_getD _ _ _ hi]

/-! ### The elevation and azimuth cuts on the built grid -/

lemma revbins_getD (E : List ℚ) (t : ℕ) (ht : t < E.length) :
    (E.reverse ++ [(90 : ℚ)]).getD t 0 = E.getD (E.length - 1 - t) 0 := by
  rw [List.getD_append _ _ _ _ (by simpa using ht),
    getD_eq_getElem' _ _ _ (by simpa using ht), List.getElem_reverse,
    ← getD_eq_getElem' _ 0 _ (by omega)]

lemma revbins_getD_last (E : List ℚ) :
    (E.reverse ++ [(90 : ℚ)]).getD E.length 0 = 90 := by
  rw [List.getD_append_right _ _ _ _ (by simp)]
  simp

lemma ringRadius_mono (ar : ℚ) (har : 0 < ar) (a b : ℕ) (hab : a ≤ b) :
    ringRadius ar a ≤ ringRadius ar b := by
  unfold ringRadius
  have hc : ((a : ℚ)) ≤ (b : ℚ) := by exact_mod_cast hab
  nlinarith

lemma cut_ele_ring (ar cutoff : ℚ) (har : 0 < ar) (i : ℕ)
    (hi : i < (ringPairs ar cutoff).length) (x : ℚ)
    (hx1 : 90 - ringRadius ar (i + 1) < x)
    (hx2 : x ≤ 90 - ringRadius ar i) :
    cutIdxRC ((hemibuild ar cutoff).elelims.reverse ++ [90]) x
      = some ((ringPairs ar cutoff).length - 1 - i) := by
  have hElen := hemibuild_elelims_length ar cutoff
  apply cutIdxRC_eq_some
  · simp only [List.length_append, List.length_reverse,
      List.length_singleton, hElen]
    omega
  · rw [revbins_getD _ _ (by rw [hElen]; omega), hElen,
      show (ringPairs ar cutoff).length + 1 - 1
          - ((ringPairs ar cutoff).length - 1 - i) = i + 1 by omega,
      hemibuild_elelims_getD ar cutoff (i + 1) (by omega)]
    exact hx1
  · rw [revbins_getD _ _ (by rw [hElen]; omega), hElen,
      show (ringPairs ar cutoff).length + 1 - 1
          - ((ringPairs ar cutoff).length - 1 - i + 1) = i by omega,
      hemibuild_elelims_getD ar cutoff i (by omega)]
    exact hx2
  · intro k hk
    rintro ⟨-, hineq⟩
    rw [revbins_getD _ _ (by rw [hElen]; omega), hElen,
      hemibuild_elelims_getD ar cutoff _ (by omega)] at hineq
    have hs1 : i + 1 ≤ (ringPairs ar cutoff).length + 1 - 1 - (k + 1) := by
      omega
    have hmono := ringRadius_mono ar har (i + 1)
      ((ringPairs ar cutoff).length + 1 - 1 - (k + 1)) hs1
    linarith

lemma cut_ele_cap (ar cutoff : ℚ) (har : 0 < ar) (x : ℚ)
    (hx1 : 90 - ar / 2 < x) (hx2 : x ≤ 90) :
    cutIdxRC ((hemibuild ar cutoff).elelims.reverse ++ [90]) x
      = some ((hemibuild ar cutoff).elelims.length - 1) := by
  have hElen := hemibuild_elelims_length ar cutoff
  have hρ0 : ringRadius ar 0 = ar / 2 := by
    unfold ringRadius
    push_cast
    ring
  apply cutIdxRC_eq_some
  · simp only [List.length_append, List.length_reverse,
      List.length_singleton, hElen]
    omega
  · rw [revbins_getD _ _ (by rw [hElen]; omega), hElen,
      show (ringPairs ar cutoff).length + 1 - 1
          - ((ringPairs ar cutoff).length + 1 - 1) = 0 by omega,
      hemibuild_elelims_getD ar cutoff 0 (by omega), hρ0]
    exact hx1
  · rw [hElen, show (ringPairs ar cutoff).length + 1 - 1 + 1
        = (ringPairs ar cutoff).length + 1 by omega, ← hElen,
      revbins_getD_last]
    exact hx2
  · intro k hk
    rintro ⟨-, hineq⟩
    rw [revbins_getD _ _ (by rw [hElen]; omega), hElen,
      hemibuild_elelims_getD ar cutoff _ (by omega)] at hineq
    have hmono := ringRadius_mono ar har 0
      ((ringPairs ar cutoff).length + 1 - 1 - (k + 1)) (Nat.zero_le _)
    rw [hρ0] at hmono
    linarith

lemma cut_az_ring (m j : ℕ) (hm : 1 ≤ m) (hj : j < m) (x : ℚ)
    (hx1 : (j : ℚ) * (360 / (m : ℚ)) ≤ x)
    (hx2 : x < ((j : ℚ) + 1) * (360 / (m : ℚ))) :
    cutIdxRO (ringAzimin m ++ [360]) x = some j := by
  have hmq : (0 : ℚ) < (m : ℚ) := by exact_mod_cast hm
  apply cutIdxRO_eq_some
  · rw [List.length_append, ringAzimin_length, List.length_singleton]
    omega
  · rw [List.getD_append _ _ _ _ (by rw [ringAzimin_length]; exact hj),
      ringAzimin_getD m j hj]
    exact hx1
  · by_cases hj1 : j + 1 < m
    · rw [List.getD_append _ _ _ _ (by rw [ringAzimin_length]; exact hj1),
        ringAzimin_getD m (j + 1) hj1]
      push_cast
      exact hx2
    · rw [List.getD_append_right _ _ _ _ (by rw [ringAzimin_length]; omega),
        ringAzimin_length, show j + 1 - m = 0 by omega]
      simp only [List.getD_cons_zero]
      have hjm : ((j : ℚ) + 1) = (m : ℚ) := by
        have : j + 1 = m := by omega
        exact_mod_cast this
      have h360 : ((m : ℚ)) * (360 / (m : ℚ)) = 360 := by field_simp
      rw [hjm, h360] at hx2
      exact hx2
  · intro k hk
    rintro ⟨-, hlt⟩
    rw [List.getD_append _ _ _ _ (by rw [ringAzimin_length]; omega),
      ringAzimin_getD m (k + 1) (by omega)] at hlt
    have hc : ((k : ℚ) + 1) ≤ (j : ℚ) := by exact_mod_cast hk
    have hspos : (0 : ℚ) ≤ 360 / (m : ℚ) := by positivity
    push_cast at hlt
    nlinarith

lemma take_map_length_sum (ar : ℚ) (entries : List ((ℚ × ℚ) × ℕ)) (i : ℕ) :
    (((entries.map (fun x => ringCells ar x.1.1 x.1.2 x.2)).take i).map
        List.length).sum
      = ((entries.take i).map (fun x => x.2)).sum := by
  rw [← List.map_take, List.map_map]
  congr 1
  apply List.map_congr_left
  intro x _
  simp [ringCells_length]

/-- C7: assigning any grid cell's stored center coordinate (azi, ele) back
through the assigner of `add_CellID` returns that same cell's CellID (its
position in the grid dataframe), for every grid built by `hemibuild` with
positive resolution and at least one cell in every ring. -/
theorem hemibuild_roundtrip (ar cutoff : ℚ) (har : 0 < ar)
    (hm : ∀ m ∈ ringMs ar cutoff, 1 ≤ m)
    (p : ℕ) (c : Cell)
    (hp : (hemibuild ar cutoff).grid[p]? = some c) :
    assignCell (hemibuild ar cutoff) c.azi c.ele = some p := by
  rw [hemibuild_grid] at hp
  cases p with
  | zero =>
    have hc : c = capCell ar := by
      rw [List.getElem?_cons_zero] at hp
      exact (Option.some.inj hp).symm
    subst hc
    have haz0 : qmod ((capCell ar).azi + 360 * 10) 360 = 0 := by
      rw [show (capCell ar).azi = 0 from rfl, qmod_eq_self 0 le_rfl (by norm_num)]
    have hcut := cut_ele_cap ar cutoff har 90 (by linarith) le_rfl
    have hlab : (hemibuild ar cutoff).elelims.length - 1
        - ((hemibuild ar cutoff).elelims.length - 1) = 0 := by omega
    have hazl : (hemibuild ar cutoff).azilims.getD 0 [] = [0] := by
      rw [hemibuild_azilims]
      rfl
    have hro : cutIdxRO [(0 : ℚ), 360] 0 = some 0 := by
      apply cutIdxRO_eq_some
      · simp
      · simp
      · norm_num
      · intro k hk
        omega
    have hcid : (hemibuild ar cutoff).CellIDs.getD 0 [] = [0] := by
      show (([0] : List ℕ)
          :: (buildRings ar (ringEntries ar cutoff) 1).CellIDs).getD 0 [] = [0]
      rfl
    simp only [assignCell, haz0, show (capCell ar).ele = (90 : ℚ) from rfl,
      hcut, hlab, hazl, List.cons_append, List.nil_append, hro, hcid]
    rfl
  | succ q =>
    have hq : (((ringEntries ar cutoff).map
        (fun x => ringCells ar x.1.1 x.1.2 x.2)).flatten)[q]? = some c := by
      simpa using hp
    obtain ⟨i, j, hiL, hjL, hcj, hqe⟩ := flatten_getElem?_decomp _ q c hq
    have hin : i < (ringPairs ar cutoff).length := by
      rw [List.length_map, ringEntries_length] at hiL
      exact hiL
    have hm1 : 1 ≤ (ringMs ar cutoff).getD i 0 :=
      hm _ (getD_mem_of_lt _ _ _ (by rw [ringMs_length]; exact hin))
    have hiE : i < (ringEntries ar cutoff).length := by
      rw [ringEntries_length]
      exact hin
    have hLi : ((ringEntries ar cutoff).map
        (fun x => ringCells ar x.1.1 x.1.2 x.2)).getD i []
        = ringCells ar (ringRadius ar i) (ringRadius ar (i + 1))
            ((ringMs ar cutoff).getD i 0) := by
      rw [getD_eq_getElem' _ _ _ (by simpa using hiE), List.getElem_map,
        ← getD_eq_getElem' _ dfltEntry _ hiE, ringEntries_getD _ _ _ hin,
        ringPairs_getD _ _ _ hin]
    rw [hLi] at hjL hcj
    rw [ringCells_length] at hjL
    have hc : c = Cell.mk
        (360 / ((ringMs ar cutoff).getD i 0 : ℚ) / 2
          + (j : ℚ) * (360 / ((ringMs ar cutoff).getD i 0 : ℚ)))
        (90 - (ringRadius ar i + ar / 2))
        ((j : ℚ) * (360 / ((ringMs ar cutoff).getD i 0 : ℚ)))
        (((j : ℚ) + 1) * (360 / ((ringMs ar cutoff).getD i 0 : ℚ)))
        (90 - ringRadius ar (i + 1)) (90 - ringRadius ar i) := by
      have hjl' : j < (ringCells ar (ringRadius ar i) (ringRadius ar (i + 1))
          ((ringMs ar cutoff).getD i 0)).length := by
        rw [ringCells_length]
        exact hjL
      rw [List.getElem?_eq_getElem hjl'] at hcj
      have hcc := Option.some.inj hcj
      rw [ringCells_getElem ar _ _ _ j hm1 hjL hjl'] at hcc
      exact hcc.symm
    have hcazi : c.azi = 360 / ((ringMs ar cutoff).getD i 0 : ℚ) / 2
        + (j : ℚ) * (360 / ((ringMs ar cutoff).getD i 0 : ℚ)) := by rw [hc]
    have hcele : c.ele = 90 - (ringRadius ar i + ar / 2) := by rw [hc]
    have hmq : (0 : ℚ) < ((ringMs ar cutoff).getD i 0 : ℚ) := by
      exact_mod_cast hm1
    have hspos : (0 : ℚ) < 360 / ((ringMs ar cutoff).getD i 0 : ℚ) := by
      positivity
    have hjm1 : (j : ℚ) + 1 ≤ ((ringMs ar cutoff).getD i 0 : ℚ) := by
      exact_mod_cast hjL
    have hazibound0 : (0 : ℚ) ≤ c.azi := by
      rw [hcazi]
      have : (0 : ℚ) ≤ (j : ℚ) * (360 / ((ringMs ar cutoff).getD i 0 : ℚ)) :=
        mul_nonneg (Nat.cast_nonneg j) hspos.le
      linarith
    have hazibound1 : c.azi < 360 := by
      rw [hcazi]
      have h1 : (j : ℚ) * (360 / ((ringMs ar cutoff).getD i 0 : ℚ))
          ≤ (((ringMs ar cutoff).getD i 0 : ℚ) - 1)
            * (360 / ((ringMs ar cutoff).getD i 0 : ℚ)) := by
        apply mul_le_mul_of_nonneg_right _ hspos.le
        linarith
      have h2 : (((ringMs ar cutoff).getD i 0 : ℚ) - 1)
          * (360 / ((ringMs ar cutoff).getD i 0 : ℚ))
          = 360 - 360 / ((ringMs ar cutoff).getD i 0 : ℚ) := by
        have hne : ((ringMs ar cutoff).getD i 0 : ℚ) ≠ 0 := ne_of_gt hmq
        have h3 : ((ringMs ar cutoff).getD i 0 : ℚ)
            * (360 / ((ringMs ar cutoff).getD i 0 : ℚ)) = 360 := by
          rw [mul_div_assoc', mul_comm, mul_div_assoc, div_self hne, mul_one]
        rw [sub_mul, one_mul, h3]
      linarith
    have hqmod : qmod (c.azi + 360 * 10) 360 = c.azi :=
      qmod_eq_self c.azi hazibound0 hazibound1
    have hradd : ringRadius ar (i + 1) = ringRadius ar i + ar := by
      unfold ringRadius
      push_cast
      ring
    have hele1 : 90 - ringRadius ar (i + 1) < c.ele := by
      rw [hcele, hradd]
      linarith
    have hele2 : c.ele ≤ 90 - ringRadius ar i := by
      rw [hcele]
      linarith
    have hcut := cut_ele_ring ar cutoff har i hin c.ele hele1 hele2
    have hlab : (hemibuild ar cutoff).elelims.length - 1
        - ((ringPairs ar cutoff).length - 1 - i) = i + 1 := by
      rw [hemibuild_elelims_length]
      omega
    have hazl := hemibuild_azilims_getD ar cutoff i hin
    have hro : cutIdxRO (ringAzimin ((ringMs ar cutoff).getD i 0) ++ [360])
        c.azi = some j := by
      apply cut_az_ring _ j hm1 hjL
      · rw [hcazi]
        linarith
      · rw [hcazi]
        have : ((j : ℚ) + 1) * (360 / ((ringMs ar cutoff).getD i 0 : ℚ))
            = (j : ℚ) * (360 / ((ringMs ar cutoff).getD i 0 : ℚ))
              + 360 / ((ringMs ar cutoff).getD i 0 : ℚ) := by ring
        rw [this]
        linarith
    have hcid := hemibuild_CellIDs_getD ar cutoff i hin
    have hgd : ((List.range ((ringMs ar cutoff).getD i 0)).map
        (fun j' => 1 + (((ringEntries ar cutoff).take i).map
            (fun x => x.2)).sum + j')).getD j 0
        = 1 + (((ringEntries ar cutoff).take i).map (fun x => x.2)).sum
            + j := by
      rw [getD_eq_getElem' _ _ _ (by simpa using hjL)]
      simp
    simp only [assignCell, hqmod, hcut, hlab, hazl, hro, hcid, hgd]
    have hsum := take_map_length_sum ar (ringEntries ar cutoff) i
    congr 1
    omega

/-- C7 (witness): the degenerate grid `hemibuild(120, 0)` has the single
cap cell at position 0; assigning its center (0, 90) returns CellID 0. -/
theorem hemibuild_roundtrip_witness :
    assignCell (hemibuild 120 0) (capCell 120).azi (capCell 120).ele
      = some 0 := by
  have hms : ringMs 120 0 = [] := by
    rw [ringMs, ringPairs_onetwenty]
    rfl
  apply hemibuild_roundtrip 120 0 (by norm_num)
  · rw [hms]
    intro m hm
    simp at hm
  · rw [hemibuild_grid_of_no_pairs 120 0 ringPairs_onetwenty]
    rfl

/-! ### The partition property of the grid -/

/-- Membership of a point in a cell's region: azimuth in
`[azimin, azimax)`, elevation in `(elemin, elemax]` — the half-open
conventions the assigner's two cuts use. -/
def inRegion (c : Cell) (az ele : ℚ) : Bool :=
  decide (c.azimin ≤ az) && decide (az < c.azimax)
    && decide (c.elemin < ele) && decide (ele ≤ c.elemax)

lemma countP_range_unique (p : ℕ → Bool) (m t : ℕ) (ht : t < m)
    (hp : p t = true) (huniq : ∀ k < m, p k = true → k = t) :
    (List.range m).countP p = 1 := by
  induction m with
  | zero => omega
  | succ n ih =>
    rw [List.range_succ, List.countP_append]
    by_cases htn : t = n
    · subst htn
      have h0 : (List.range t).countP p = 0 := by
        rw [List.countP_eq_zero]
        intro k hk
        rw [List.mem_range] at hk
        intro hpk
        exact absurd (huniq k (by omega) hpk) (by omega)
      rw [h0]
      simp [List.countP_cons, hp]
    · have htn' : t < n := by omega
      rw [ih htn' (fun k hk hpk => huniq k (by omega) hpk)]
      have hn : p n = false := by
        by_contra hcon
        exact htn ((huniq n (by omega) (by simpa using hcon))).symm
      simp [List.countP_cons, hn]

lemma exists_band_idx (s az : ℚ) (hs : 0 < s) (h0 : 0 ≤ az) (m : ℕ)
    (hmz : az < (m : ℚ) * s) :
    ∃ t : ℕ, t < m ∧ ((t : ℚ) * s ≤ az ∧ az < ((t : ℚ) + 1) * s)
      ∧ ∀ k : ℕ, (k : ℚ) * s ≤ az → az < ((k : ℚ) + 1) * s → k = t := by
  have hfl0 : 0 ≤ ⌊az / s⌋ := Int.floor_nonneg.mpr (by positivity)
  refine ⟨(⌊az / s⌋).toNat, ?_, ⟨?_, ?_⟩, ?_⟩
  all_goals
    have htq : (((⌊az / s⌋).toNat : ℕ) : ℚ) = (⌊az / s⌋ : ℚ) := by
      exact_mod_cast Int.toNat_of_nonneg hfl0
  · by_contra hcon
    push_neg at hcon
    have hmc : (m : ℚ) ≤ (((⌊az / s⌋).toNat : ℕ) : ℚ) := by exact_mod_cast hcon
    rw [htq] at hmc
    have h1 : (⌊az / s⌋ : ℚ) * s ≤ (az / s) * s := by
      have := Int.floor_le (az / s)
      nlinarith
    rw [div_mul_cancel₀ az (ne_of_gt hs)] at h1
    nlinarith
  · rw [htq]
    have h1 : (⌊az / s⌋ : ℚ) ≤ az / s := Int.floor_le (az / s)
    have h2 : (⌊az / s⌋ : ℚ) * s ≤ (az / s) * s := by nlinarith
    rwa [div_mul_cancel₀ az (ne_of_gt hs)] at h2
  · rw [htq]
    have h1 : az / s < (⌊az / s⌋ : ℚ) + 1 := Int.lt_floor_add_one (az / s)
    have h2 : (az / s) * s < ((⌊az / s⌋ : ℚ) + 1) * s := by nlinarith
    rwa [div_mul_cancel₀ az (ne_of_gt hs)] at h2
  · intro k hk1 hk2
    by_contra hne
    rcases Nat.lt_or_ge k (⌊az / s⌋).toNat with hlt | hge
    · have hc : (k : ℚ) + 1 ≤ (((⌊az / s⌋).toNat : ℕ) : ℚ) := by
        exact_mod_cast hlt
      rw [htq] at hc
      have h1 : (⌊az / s⌋ : ℚ) * s ≤ az := by
        have := Int.floor_le (az / s)
        have h2 : (⌊az / s⌋ : ℚ) * s ≤ (az / s) * s := by nlinarith
        rwa [div_mul_cancel₀ az (ne_of_gt hs)] at h2
      nlinarith
    · have hgt : (⌊az / s⌋).toNat < k := by omega
      have hc : (((⌊az / s⌋).toNat : ℕ) : ℚ) + 1 ≤ (k : ℚ) := by
        exact_mod_cast hgt
      rw [htq] at hc
      have h1 : az < ((⌊az / s⌋ : ℚ) + 1) * s := by
        have := Int.lt_floor_add_one (az / s)
        have h2 : (az / s) * s < ((⌊az / s⌋ : ℚ) + 1) * s := by nlinarith
        rwa [div_mul_cancel₀ az (ne_of_gt hs)] at h2
      nlinarith

lemma ringCells_eq (ar inner outer : ℚ) (m : ℕ) :
    ringCells ar inner outer m = (List.range m).map (fun j =>
      Cell.mk ((linspaceQ (360 / (m : ℚ) / 2) (360 - 360 / (m : ℚ) / 2) m).getD j 0)
        (90 - (inner + ar / 2))
        ((ringAzimin m).getD j 0)
        (((ringAzimin m).drop 1 ++ [(360 : ℚ)]).getD j 0)
        (90 - outer) (90 - inner)) := rfl

lemma ringCells_countP (ar inner outer : ℚ) (m : ℕ) (hm : 1 ≤ m)
    (az ele : ℚ) (haz0 : 0 ≤ az) (haz1 : az < 360) :
    (ringCells ar inner outer m).countP (fun c => inRegion c az ele)
      = if 90 - outer < ele ∧ ele ≤ 90 - inner then 1 else 0 := by
  have hmq : (0 : ℚ) < (m : ℚ) := by exact_mod_cast hm
  have hspos : (0 : ℚ) < 360 / (m : ℚ) := by positivity
  rw [ringCells_eq, List.countP_map]
  by_cases hele : 90 - outer < ele ∧ ele ≤ 90 - inner
  · rw [if_pos hele]
    have hmz : az < (m : ℚ) * (360 / (m : ℚ)) := by
      have h360 : (m : ℚ) * (360 / (m : ℚ)) = 360 := by
        rw [mul_div_assoc', mul_comm, mul_div_assoc,
          div_self (ne_of_gt hmq), mul_one]
      rw [h360]
      exact haz1
    obtain ⟨t, htm, ⟨ht1, ht2⟩, huniq⟩ :=
      exists_band_idx (360 / (m : ℚ)) az hspos haz0 m hmz
    apply countP_range_unique _ m t htm
    · simp only [Function.comp_apply, inRegion, Bool.and_eq_true,
        decide_eq_true_eq]
      rw [ringAzimin_getD m t htm, ringAzimax_getD m t hm htm]
      exact ⟨⟨⟨ht1, ht2⟩, hele.1⟩, hele.2⟩
    · intro k hk hpk
      simp only [Function.comp_apply, inRegion, Bool.and_eq_true,
        decide_eq_true_eq] at hpk
      rw [ringAzimin_getD m k hk, ringAzimax_getD m k hm hk] at hpk
      exact huniq k hpk.1.1.1 hpk.1.1.2
  · rw [if_neg hele]
    rw [List.countP_eq_zero]
    intro j hj
    simp only [Function.comp_apply, inRegion, Bool.and_eq_true,
      decide_eq_true_eq]
    rintro ⟨⟨-, h3⟩, h4⟩
    exact hele ⟨h3, h4⟩

lemma rings_flatten_countP (ar : ℚ) (har : 0 < ar) (az ele : ℚ)
    (haz0 : 0 ≤ az) (haz1 : az < 360) :
    ∀ (entries : List ((ℚ × ℚ) × ℕ)) (a : ℚ),
      (∀ i, i < entries.length →
        (entries.getD i dfltEntry).1
          = (a + (i : ℚ) * ar, a + ((i : ℚ) + 1) * ar)) →
      (∀ i, i < entries.length → 1 ≤ (entries.getD i dfltEntry).2) →
      ((entries.map (fun x => ringCells ar x.1.1 x.1.2 x.2)).flatten).countP
          (fun c => inRegion c az ele)
        = if 90 - (a + (entries.length : ℚ) * ar) < ele ∧ ele ≤ 90 - a
          then 1 else 0 := by
  intro entries
  induction entries with
  | nil =>
    intro a _ _
    rw [List.map_nil, List.flatten_nil, List.countP_nil, if_neg]
    rintro ⟨h1, h2⟩
    simp only [List.length_nil, Nat.cast_zero, zero_mul, add_zero] at h1
    linarith
  | cons e rest ih =>
    intro a hchain hm
    rw [List.map_cons, List.flatten_cons, List.countP_append]
    have he := hchain 0 (by simp)
    rw [List.getD_cons_zero] at he
    have ha1 : e.1.1 = a := by
      have := congrArg Prod.fst he
      simpa using this
    have ha2 : e.1.2 = a + ar := by
      have := congrArg Prod.snd he
      push_cast at this
      simpa using this
    have hm0 : 1 ≤ e.2 := by
      have := hm 0 (by simp)
      rwa [List.getD_cons_zero] at this
    have hring := ringCells_countP ar e.1.1 e.1.2 e.2 hm0 az ele haz0 haz1
    have hrest := ih (a + ar)
      (fun i hi => by
        have := hchain (i + 1) (by simpa using Nat.succ_lt_succ hi)
        rw [List.getD_cons_succ] at this
        rw [this]
        refine Prod.ext ?_ ?_ <;> push_cast <;> ring)
      (fun i hi => by
        have := hm (i + 1) (by simpa using Nat.succ_lt_succ hi)
        rwa [List.getD_cons_succ] at this)
    rw [hring, hrest, ha1, ha2]
    have hL0 : (0 : ℚ) ≤ (rest.length : ℚ) := Nat.cast_nonneg _
    have hlen : ((e :: rest).length : ℚ) = (rest.length : ℚ) + 1 := by
      push_cast [List.length_cons]
      ring
    rw [hlen]
    by_cases hc1 : 90 - (a + ar) < ele ∧ ele ≤ 90 - a
    · have hnc2 : ¬(90 - (a + ar + (rest.length : ℚ) * ar) < ele
          ∧ ele ≤ 90 - (a + ar)) := by
        rintro ⟨-, h2⟩
        linarith [hc1.1]
      have hcall : 90 - (a + ((rest.length : ℚ) + 1) * ar) < ele
          ∧ ele ≤ 90 - a := by
        constructor
        · have hle : a + ar ≤ a + ((rest.length : ℚ) + 1) * ar := by nlinarith
          linarith [hc1.1]
        · exact hc1.2
      rw [if_pos hc1, if_neg hnc2, if_pos hcall]
    · rw [if_neg hc1]
      by_cases hc2 : 90 - (a + ar + (rest.length : ℚ) * ar) < ele
          ∧ ele ≤ 90 - (a + ar)
      · have hcall : 90 - (a + ((rest.length : ℚ) + 1) * ar) < ele
            ∧ ele ≤ 90 - a := by
          constructor
          · have heq : a + ((rest.length : ℚ) + 1) * ar
                = a + ar + (rest.length : ℚ) * ar := by ring
            rw [heq]
            exact hc2.1
          · linarith [hc2.2]
        rw [if_pos hc2, if_pos hcall]
      · have hncall : ¬(90 - (a + ((rest.length : ℚ) + 1) * ar) < ele
            ∧ ele ≤ 90 - a) := by
          rintro ⟨h1, h2⟩
          by_cases hele : ele ≤ 90 - (a + ar)
          · refine hc2 ⟨?_, hele⟩
            have heq : a + ar + (rest.length : ℚ) * ar
                = a + ((rest.length : ℚ) + 1) * ar := by ring
            rw [heq]
            exact h1
          · push_neg at hele
            exact hc1 ⟨hele, h2⟩
        rw [if_neg hc2, if_neg hncall]

lemma getD_default_irrel {α : Type} (l : List α) (d e : α) (i : ℕ)
    (hi : i < l.length) : l.getD i d = l.getD i e := by
  rw [getD_eq_getElem' _ _ _ hi, getD_eq_getElem' _ _ _ hi]

lemma getLastD_eq_getD {α : Type} (l : List α) (d : α) :
    l.getLastD d = l.getD (l.length - 1) d := by
  rw [List.getLastD_eq_getLast?, List.getLast?_eq_getElem?,
    List.getD_eq_getElem?_getD]

/-- C3 (amended): the cells of the grid built by `hemibuild` partition the
sky from the grid's own lowest elevation edge (the last entry of
`elelims`, which can sit strictly above `cutoff`) up to 90° elevation:
every (azimuth, elevation) point with azimuth in [0, 360) and elevation in
(lowest edge, 90] lies in exactly one cell's region
`[azimin, azimax) × (elemin, elemax]` — in particular no two cell regions
overlap there. -/
theorem hemibuild_partition (ar cutoff : ℚ) (har : 0 < ar)
    (hm : ∀ m ∈ ringMs ar cutoff, 1 ≤ m)
    (az ele : ℚ) (haz0 : 0 ≤ az) (haz1 : az < 360)
    (hele0 : (hemibuild ar cutoff).elelims.getLastD 90 < ele)
    (hele1 : ele ≤ 90) :
    (hemibuild ar cutoff).grid.countP (fun c => inRegion c az ele) = 1 := by
  have hchain : ∀ i, i < (ringEntries ar cutoff).length →
      ((ringEntries ar cutoff).getD i dfltEntry).1
        = (ar / 2 + (i : ℚ) * ar, ar / 2 + ((i : ℚ) + 1) * ar) := by
    intro i hi
    rw [ringEntries_length] at hi
    rw [ringEntries_getD _ _ _ hi, ringPairs_getD _ _ _ hi]
    unfold ringRadius
    refine Prod.ext ?_ ?_ <;> push_cast <;> ring
  have hmI : ∀ i, i < (ringEntries ar cutoff).length →
      1 ≤ ((ringEntries ar cutoff).getD i dfltEntry).2 := by
    intro i hi
    rw [ringEntries_length] at hi
    rw [ringEntries_getD _ _ _ hi]
    exact hm _ (getD_mem_of_lt _ _ _ (by rw [ringMs_length]; exact hi))
  have hrings := rings_flatten_countP ar har az ele haz0 haz1
    (ringEntries ar cutoff) (ar / 2) hchain hmI
  have hElen := hemibuild_elelims_length ar cutoff
  have hlast : (hemibuild ar cutoff).elelims.getLastD 90
      = 90 - (ar / 2 + ((ringEntries ar cutoff).length : ℚ) * ar) := by
    rw [getLastD_eq_getD,
      getD_default_irrel _ 90 0 _ (by omega), hElen]
    rw [show (ringPairs ar cutoff).length + 1 - 1
        = (ringPairs ar cutoff).length by omega]
    rw [hemibuild_elelims_getD ar cutoff _ (by omega)]
    rw [ringEntries_length]
    unfold ringRadius
    ring
  rw [hlast] at hele0
  rw [hemibuild_grid, List.countP_cons, hrings]
  have hcap : inRegion (capCell ar) az ele
      = decide (90 - ar / 2 < ele ∧ ele ≤ 90) := by
    simp [inRegion, capCell, haz0, haz1]
  rw [hcap]
  by_cases hC : 90 - ar / 2 < ele
  · have h1 : ¬(90 - (ar / 2 + ((ringEntries ar cutoff).length : ℚ) * ar)
        < ele ∧ ele ≤ 90 - ar / 2) := by
      rintro ⟨-, h2⟩
      linarith
    rw [if_neg h1]
    have h2 : decide (90 - ar / 2 < ele ∧ ele ≤ 90) = true := by
      rw [decide_eq_true_eq]
      exact ⟨hC, hele1⟩
    rw [h2]
    simp
  · push_neg at hC
    rw [if_pos ⟨hele0, hC⟩]
    have h2 : decide (90 - ar / 2 < ele ∧ ele ≤ 90) = false := by
      simp only [decide_eq_false_iff_not]
      rintro ⟨hx, -⟩
      linarith
    rw [h2]
    simp

/-- C3 (counterexample): for `hemibuild(10, 0)` the point with azimuth 0
and elevation 0 — inside the claimed domain [0,360) × [0,90] — maps to no
CellID at all: the rings stop at elevation 5, leaving [0,5] uncovered. -/
theorem hemibuild_partition_cex : assignCell (hemibuild 10 0) 0 0 = none := by
  have hcut : cutIdxRC ((hemibuild 10 0).elelims.reverse ++ [90]) 0 = none := by
    rw [hemibuild_ten_elelims]
    decide
  simp only [assignCell, hcut]

/-- C3 (witness): the degenerate grid `hemibuild(120, 0)` covers
elevations (30, 90]; the point (azimuth 10, elevation 50) lies in exactly
one cell region. -/
theorem hemibuild_partition_witness :
    (hemibuild 120 0).grid.countP (fun c => inRegion c 10 50) = 1 := by
  apply hemibuild_partition 120 0 (by norm_num) ?_ 10 50 (by norm_num)
    (by norm_num) ?_ (by norm_num)
  · rw [ringMs, ringPairs_onetwenty]
    intro m hm
    simp at hm
  · rw [hemibuild_elelims, ringPairs_onetwenty]
    norm_num

end GnssVod
